import Mathlib

/-!
# Arize Go client: record building and label / value coercion

A shallow embedding of `client.go` (package `arize`): the label parser, the
label consistency validator, the value / dimension / embedding parsers and
`Client.Log`, followed by theorems about them.

Modelling conventions
* A Go `interface{}` value is a `RawValue`: one constructor per dynamic type
  the type switches of `client.go` can distinguish, plus `other` for every
  remaining dynamic type.
* A Go pointer is an `Option`; dereferencing `none` is the outcome
  `Result.panic`.
* A Go `(value, error)` return is a `Result`: `ok`, `error` or `panic`.
* A Go map is an association list; the order of the list is the order in
  which `range` visits the entries, which Go leaves unspecified.
* Machine integers are `Int` / `Nat` with an explicit range; floating point
  numbers are IEEE 754 bit patterns held in a `Nat`.
-/

set_option autoImplicit false
set_option linter.dupNamespace false

namespace Arize

/-! ## Numbers -/

/-- Go `float64`: the IEEE 754 binary64 bit pattern, a number below `2 ^ 64`. -/
structure Float64 where
  bits : Nat
  deriving DecidableEq, Repr

/-- Go `float32`: the IEEE 754 binary32 bit pattern, a number below `2 ^ 32`. -/
structure Float32 where
  bits : Nat
  deriving DecidableEq, Repr

/-- Position of the highest set bit of `m` (0 for `m < 2`); `fuel` bounds the
number of halvings. -/
def log2Fuel : Nat → Nat → Nat
  | 0, _ => 0
  | fuel + 1, m => if m < 2 then 0 else 1 + log2Fuel fuel (m / 2)

/-- Floor of the binary logarithm of `m`. -/
def ilog2 (m : Nat) : Nat := log2Fuel m m

/-- Quotient `m / 2 ^ k` rounded to nearest, ties to even. -/
def roundShiftRight (m k : Nat) : Nat :=
  let q := m / 2 ^ k
  let r := m % 2 ^ k
  if 2 ^ k < 2 * r then q + 1
  else if 2 * r < 2 ^ k then q
  else if q % 2 = 1 then q + 1 else q

/-- Go conversion `float64(n)` of an integer of at most 64 bits: the nearest
binary64 value, ties to even. -/
def Float64.ofInt (n : Int) : Float64 :=
  let m := n.natAbs
  if m = 0 then ⟨0⟩
  else
    let s := if n < 0 then 2 ^ 63 else 0
    let e := ilog2 m
    let sig := if e ≤ 52 then m * 2 ^ (52 - e) else roundShiftRight m (e - 52)
    ⟨s + (e + 1023) * 2 ^ 52 + (sig - 2 ^ 52)⟩

/-- Go conversion `float64(x)` of a `float32`: exact widening. Zeros,
subnormals, normals and infinities keep their value; a NaN keeps its sign and
payload and comes out quiet. -/
def Float64.ofFloat32 (x : Float32) : Float64 :=
  let s := (x.bits / 2 ^ 31) % 2
  let e := (x.bits / 2 ^ 23) % 256
  let f := x.bits % 2 ^ 23
  if e = 0 then
    if f = 0 then ⟨s * 2 ^ 63⟩
    else
      let k := ilog2 f
      ⟨s * 2 ^ 63 + (k + 874) * 2 ^ 52 + (f * 2 ^ (52 - k) - 2 ^ 52)⟩
  else if e = 255 then
    if f = 0 then ⟨s * 2 ^ 63 + 2047 * 2 ^ 52⟩
    else ⟨s * 2 ^ 63 + 2047 * 2 ^ 52 + 2 ^ 51 + (f % 2 ^ 22) * 2 ^ 29⟩
  else ⟨s * 2 ^ 63 + (e + 896) * 2 ^ 52 + f * 2 ^ 29⟩

/-- Go conversion `int64(n)`: two's complement wrap to 64 bits; the identity
on every value that fits. -/
def toInt64 (n : Int) : Int := (n + 2 ^ 63) % 2 ^ 64 - 2 ^ 63

/-- Range of a signed integer type of `w` bits. -/
def inIntRange (w : Nat) (n : Int) : Prop := -(2 : Int) ^ (w - 1) ≤ n ∧ n < (2 : Int) ^ (w - 1)

instance (w : Nat) (n : Int) : Decidable (inIntRange w n) := by
  unfold inIntRange; exact inferInstance

/-- Go `strconv.FormatBool`. -/
def formatBool (b : Bool) : String := if b then "true" else "false"

/-! ## Go maps -/

/-- A Go `map[string]α`, listed in the order `range` visits it. -/
abbrev GoMap (α : Type) := List (String × α)

namespace GoMap

variable {α : Type}

/-- Map lookup `m[k]`. -/
def get? (m : GoMap α) (k : String) : Option α :=
  match m with
  | [] => none
  | (k', v) :: rest => if k' = k then some v else get? rest k

/-- Map assignment `m[k] = v`: overwrite the entry of `k`, or add one. -/
def set (m : GoMap α) (k : String) (v : α) : GoMap α :=
  match m with
  | [] => [(k, v)]
  | (k', v') :: rest => if k' = k then (k, v) :: rest else (k', v') :: set rest k v

/-- The keys of the map. -/
def keys (m : GoMap α) : List String := m.map Prod.fst

end GoMap

/-! ## Host side types of `client.go` -/

/-- Go `type ScoreCategorical struct`. -/
structure ScoreCategorical where
  Score : Float64
  Category : String
  NumericSequence : List Float64
  deriving DecidableEq, Repr

/-- Go `type Embeddings struct`; `LinkToData` is a `*string`. -/
structure Embeddings where
  Vector : List Float64
  Data : List String
  LinkToData : Option String
  deriving DecidableEq, Repr

/-- Go `type Response struct`. -/
structure Response where
  StatusCode : Int
  Body : String
  deriving DecidableEq, Repr

/-- A Go `interface{}` argument, by dynamic type. `nil` is the nil interface;
`scoreCategorical p` is a `*ScoreCategorical` and `embeddings p` a
`*Embeddings`, with `none` the nil pointer of that type; `other` stands for a
value of any dynamic type not listed (a struct passed by value, a slice, ...). -/
inductive RawValue where
  | nil
  | string (s : String)
  | bool (b : Bool)
  | int (n : Int)
  | int8 (n : Int)
  | int16 (n : Int)
  | int32 (n : Int)
  | int64 (n : Int)
  | uint (n : Nat)
  | uint8 (n : Nat)
  | uint16 (n : Nat)
  | uint32 (n : Nat)
  | uint64 (n : Nat)
  | float32 (x : Float32)
  | float64 (x : Float64)
  | scoreCategorical (p : Option ScoreCategorical)
  | embeddings (p : Option Embeddings)
  | other (typeName : String)
  deriving DecidableEq, Repr

/-- The value is within the range of its Go type; `int` is the platform
integer, at most 64 bits wide. -/
def RawValue.InRange : RawValue → Prop
  | .int n => inIntRange 64 n
  | .int8 n => inIntRange 8 n
  | .int16 n => inIntRange 16 n
  | .int32 n => inIntRange 32 n
  | .int64 n => inIntRange 64 n
  | .uint n => n < 2 ^ 64
  | .uint8 n => n < 2 ^ 8
  | .uint16 n => n < 2 ^ 16
  | .uint32 n => n < 2 ^ 32
  | .uint64 n => n < 2 ^ 64
  | .float32 x => x.bits < 2 ^ 32
  | .float64 x => x.bits < 2 ^ 64
  | _ => True

instance (v : RawValue) : Decidable v.InRange := by
  cases v <;> unfold RawValue.InRange <;> exact inferInstance

/-! ## Wire schema (package `pb`) -/

/-- Modelled from the spec: the generated `pb.ScoreCategorical` message is not
part of the sources; its `Type` oneof has the two variants `client.go` builds. -/
inductive PbScoreCategorical where
  | ScoreCategory (Category : String) (Score : Float64) (NumericSequence : List Float64)
  | Category (Category : String)
  deriving DecidableEq, Repr

/-- Modelled from the spec: the `Data` oneof of `pb.Label`, a tagged union
over Categorical and Numeric. -/
inductive LabelData where
  | ScoreCategorical (sc : PbScoreCategorical)
  | Numeric (v : Float64)
  deriving DecidableEq, Repr

/-- Modelled from the spec: the `pb.Label` message; `Data = none` is the
unset oneof. -/
structure Label where
  Data : Option LabelData
  deriving DecidableEq, Repr

/-- Modelled from the spec: `pb.Embedding_RawData`, whose only variant used
is the token array. -/
inductive RawData where
  | TokenArray (Tokens : List String)
  deriving DecidableEq, Repr

/-- Modelled from the spec: the `pb.Embedding` message; `LinkToData` is a
wrapped string pointer. -/
structure PbEmbedding where
  Vector : List Float64
  RawData : Option RawData
  LinkToData : Option String
  deriving DecidableEq, Repr

/-- Modelled from the spec: the `Data` oneof of `pb.Value`, a tagged union
over String, Double, Int and Embedding. -/
inductive Value where
  | String_ (s : String)
  | Double (x : Float64)
  | Int (i : Int)
  | Embedding (e : PbEmbedding)
  deriving DecidableEq, Repr

/-! ## Outcomes -/

/-- The errors `client.go` creates, one constructor per message; the
arguments are the values the message formats. -/
inductive Err where
  | modelIDEmpty
  | predictionIDEmpty
  | labelsNotSameType (pl al : Label)
  | unknownPredictionLabel (pl : Label)
  | unknownLabelType (labelValue : RawValue)
  | unknownValueType (val : RawValue)
  | embeddingsVectorEmpty
  | creatingRequestBody (cause : String)
  | creatingNewRequest (cause : String)
  | httpRequestFailure (cause : String)
  deriving DecidableEq, Repr

/-- Outcome of a Go call returning `(value, error)`: the value, the error, or
a run-time panic (nil pointer dereference). -/
inductive Result (α : Type) where
  | ok (a : α)
  | error (e : Err)
  | panic
  deriving DecidableEq, Repr

/-! ## Label parser and label consistency validator -/

/-- Go `parseLabel`: the type switch over the dynamic type of `labelValue`.
The `*ScoreCategorical` case reads the fields through the pointer, so the
nil pointer of that type panics. -/
def parseLabel (labelValue : RawValue) : Result (Option Label) :=
  match labelValue with
  | .nil => .ok none
  | .scoreCategorical none => .panic
  | .scoreCategorical (some lv) =>
    .ok (some ⟨some (.ScoreCategorical (.ScoreCategory lv.Category lv.Score lv.NumericSequence))⟩)
  | .string s => .ok (some ⟨some (.ScoreCategorical (.Category s))⟩)
  | .bool b => .ok (some ⟨some (.ScoreCategorical (.Category (formatBool b)))⟩)
  | .int n => .ok (some ⟨some (.Numeric (Float64.ofInt n))⟩)
  | .int64 n => .ok (some ⟨some (.Numeric (Float64.ofInt n))⟩)
  | .int32 n => .ok (some ⟨some (.Numeric (Float64.ofInt n))⟩)
  | .float64 x => .ok (some ⟨some (.Numeric x)⟩)
  | .float32 x => .ok (some ⟨some (.Numeric (Float64.ofFloat32 x))⟩)
  | v => .error (.unknownLabelType v)

/-- Go `validateLabels`; the returned `error` is `none` for Go `nil`. -/
def validateLabels (pl al : Option Label) : Option Err :=
  match pl, al with
  | none, _ => none
  | _, none => none
  | some p, some a =>
    match p.Data with
    | some (.ScoreCategorical _) =>
      match a.Data with
      | some (.ScoreCategorical _) => none
      | _ => some (.labelsNotSameType p a)
    | some (.Numeric _) =>
      match a.Data with
      | some (.Numeric _) => none
      | _ => some (.labelsNotSameType p a)
    | none => some (.unknownPredictionLabel p)

/-! ## Value, dimension and embedding parsers -/

/-- Go `parseValue`: the type switch over the dynamic type of `val`. -/
def parseValue (val : RawValue) : Result Value :=
  match val with
  | .string s => .ok (.String_ s)
  | .bool b => .ok (.String_ (formatBool b))
  | .float64 x => .ok (.Double x)
  | .float32 x => .ok (.Double (Float64.ofFloat32 x))
  | .int n => .ok (.Int (toInt64 n))
  | .int32 n => .ok (.Int (toInt64 n))
  | .int64 n => .ok (.Int n)
  | v => .error (.unknownValueType v)

/-- The loop of Go `parseDimensions` over the entries still to visit, `dms`
being the map built so far. -/
def parseDimensionsLoop : List (String × RawValue) → GoMap Value → Result (GoMap Value)
  | [], dms => .ok dms
  | (k, v) :: rest, dms =>
    match parseValue v with
    | .ok pv => parseDimensionsLoop rest (dms.set k pv)
    | .error e => .error e
    | .panic => .panic

/-- Go `parseDimensions`. -/
def parseDimensions (dims : GoMap RawValue) : Result (GoMap Value) :=
  parseDimensionsLoop dims []

/-- The inner loop of Go `parseEmbeddings` copying the tokens one by one:
`tok.Tokens = append(tok.Tokens, v)`. -/
def appendTokens (data : List String) : List String :=
  data.foldl (fun tokens v => tokens ++ [v]) []

/-- The loop of Go `parseEmbeddings` over the entries still to visit. An
entry is a `*Embeddings`; `len(e.Vector)` on a nil entry panics. -/
def parseEmbeddingsLoop : List (String × Option Embeddings) → GoMap Value → Result (GoMap Value)
  | [], ret => .ok ret
  | (_, none) :: _, _ => .panic
  | (k, some e) :: rest, ret =>
    if e.Vector.length = 0 then .error .embeddingsVectorEmpty
    else
      parseEmbeddingsLoop rest
        (ret.set k (.Embedding
          { Vector := e.Vector
            RawData := some (.TokenArray (appendTokens e.Data))
            LinkToData := e.LinkToData }))

/-- Go `parseEmbeddings`. -/
def parseEmbeddings (es : GoMap (Option Embeddings)) : Result (GoMap Value) :=
  parseEmbeddingsLoop es []

/-! ## Records -/

/-- Go `time.Time`, by what `client.go` and its tests observe of it: the Unix
seconds and the nanosecond within the second. -/
structure Time where
  Unix : Int
  Nanosecond : Int
  deriving DecidableEq, Repr

/-- The wire timestamp `timestamppb.Timestamp`. -/
structure Timestamp where
  Seconds : Int
  Nanos : Int
  deriving DecidableEq, Repr

/-- Go `timestamppb.New`. -/
def timestamppbNew (t : Time) : Timestamp := { Seconds := t.Unix, Nanos := t.Nanosecond }

/-- Modelled from the spec: the `pb.Prediction` message, with the fields
`Client.Log` sets. -/
structure Prediction where
  Timestamp : Timestamp
  ModelVersion : String
  Label : Label
  Features : GoMap Value
  Tags : GoMap Value
  deriving DecidableEq, Repr

/-- Modelled from the spec: the `pb.Actual` message. -/
structure Actual where
  Label : Label
  Tags : GoMap Value
  Timestamp : Timestamp
  deriving DecidableEq, Repr

/-- Modelled from the spec: the `pb.FeatureImportances` message. -/
structure FeatureImportances where
  FeatureImportances : GoMap Float64
  ModelVersion : String
  Timestamp : Timestamp
  deriving DecidableEq, Repr

/-- Modelled from the spec: the `pb.Record` message; an absent sub-record is
`none`. -/
structure Record where
  SpaceKey : String
  ModelId : String
  PredictionId : String
  Prediction : Option Prediction
  Actual : Option Actual
  FeatureImportances : Option FeatureImportances
  deriving DecidableEq, Repr

/-! ## Transport and environment -/

/-- Go `http.Request`, by the parts `Client.Log` sets. -/
structure Request where
  Method : String
  URL : String
  Body : String
  Header : GoMap (List String)
  deriving DecidableEq, Repr

/-- Go `http.Response` as `Client.Log` reads it: the status code and the
bytes `ioutil.ReadAll` obtains from the body. -/
structure HttpResponse where
  StatusCode : Int
  Body : String
  deriving DecidableEq, Repr

/-- Go `httpClient` interface. The state of a transport is the list of the
requests it has received; `answer` is what `Do` returns for a request, given
the requests received before: a `*http.Response` and an `error`. -/
structure HttpClient where
  capturedRequests : List Request
  answer : List Request → Request → Option HttpResponse × Option String

/-- Go `Do`: the transport records the request and answers it. -/
def HttpClient.Do (m : HttpClient) (req : Request) :
    HttpClient × Option HttpResponse × Option String :=
  ({ m with capturedRequests := m.capturedRequests ++ [req] }, m.answer m.capturedRequests req)

/-- Go `mockHTTPClient` of the tests: it answers every request with the
configured response and error. -/
def mockHTTPClient (response : Option HttpResponse) (err : Option String) : HttpClient :=
  { capturedRequests := [], answer := fun _ _ => (response, err) }

/-- Go `type Client struct`. -/
structure Client where
  client : HttpClient
  baseURL : String
  spaceKey : String
  apiKey : String
  headers : GoMap (List String)

/-- Go constant `baseURL`. -/
def baseURL : String := "https://api.arize.com"

/-- Go constant `sdkVersion`. -/
def sdkVersion : String := "0.1.0"

/-- Go `NewClient`; `defaultClient` is `http.DefaultClient`. -/
def NewClient (defaultClient : HttpClient) (spaceKey apiKey : String) : Client :=
  { client := defaultClient
    apiKey := apiKey
    spaceKey := spaceKey
    baseURL := baseURL
    headers :=
      [("authorization", [apiKey]), ("Grpc-Metadata-space", [spaceKey]),
        ("Grpc-Metadata-sdk-version", [sdkVersion]), ("Grpc-Metadata-sdk", ["go"])] }

/-- Go `testClient` of the tests: status 200 and an empty body. -/
def testClient : Client :=
  { NewClient (mockHTTPClient none none) "testSpaceKey" "testApiKey" with
    client := mockHTTPClient (some { StatusCode := 200, Body := "" }) none }

/-- Go `context.Context`, an uninterpreted handle. -/
structure Context where
  id : Nat
  deriving DecidableEq, Repr

/-- What `Client.Log` takes from outside the package: the wall clock read by
`timestamppb.Now`, the encoder `protojson.Marshal` and the request
constructor `http.NewRequestWithContext`; the last two may fail. -/
structure Env where
  now : Time
  marshal : Record → Except String String
  newRequestWithContext : Context → String → String → String → Except String Request

/-! ## `Client.Log` -/

/-- The loop `for k, v := range es { fs[k] = v }` of `Client.Log`. -/
def mergeEmbeddings (fs es : GoMap Value) : GoMap Value :=
  es.foldl (fun acc kv => acc.set kv.1 kv.2) fs

/-- First half of Go `Client.Log` (up to the assignment of
`rec.FeatureImportances`): validation and assembly of the record. -/
def Client.buildRecord (c : Client) (env : Env) (modelID : String) (modelVersion : Option String)
    (predictionID : String) (features tags : GoMap RawValue) (shapValues : GoMap Float64)
    (prediction actual : RawValue) (timestamp : Option Time)
    (embeddingFeatures : GoMap (Option Embeddings)) : Result Record :=
  if modelID = "" then .error .modelIDEmpty
  else if predictionID = "" then .error .predictionIDEmpty
  else
    match parseLabel prediction with
    | .error e => .error e
    | .panic => .panic
    | .ok predictionLabel =>
    match parseLabel actual with
    | .error e => .error e
    | .panic => .panic
    | .ok actualLabel =>
    match validateLabels predictionLabel actualLabel with
    | some e => .error e
    | none =>
    let ts : Timestamp :=
      match timestamp with
      | none => timestamppbNew env.now
      | some t => timestamppbNew t
    match parseDimensions tags with
    | .error e => .error e
    | .panic => .panic
    | .ok tagsM =>
    let rec0 : Record :=
      { SpaceKey := c.spaceKey, ModelId := modelID, PredictionId := predictionID,
        Prediction := none, Actual := none, FeatureImportances := none }
    let mv : String :=
      match modelVersion with
      | none => ""
      | some v => v
    let withPrediction : Result Record :=
      match predictionLabel with
      | none => .ok rec0
      | some pl =>
        match parseDimensions features with
        | .error e => .error e
        | .panic => .panic
        | .ok fs =>
        match parseEmbeddings embeddingFeatures with
        | .error e => .error e
        | .panic => .panic
        | .ok es =>
        .ok { rec0 with
          Prediction := some
            { Timestamp := ts, ModelVersion := mv, Label := pl,
              Features := mergeEmbeddings fs es, Tags := tagsM } }
    match withPrediction with
    | .error e => .error e
    | .panic => .panic
    | .ok rec1 =>
    let rec2 : Record :=
      match actualLabel with
      | none => rec1
      | some al => { rec1 with Actual := some { Label := al, Tags := tagsM, Timestamp := ts } }
    let rec3 : Record :=
      if 0 < shapValues.length then
        { rec2 with
          FeatureImportances := some
            { FeatureImportances := shapValues, ModelVersion := mv, Timestamp := ts } }
      else rec2
    .ok rec3

/-- Second half of Go `Client.Log`: encode the record, build one POST request,
hand it to the transport and read the answer. Returns the outcome and the
transport afterwards. -/
def Client.send (c : Client) (env : Env) (ctx : Context) (rec : Record) :
    Result Response × HttpClient :=
  match env.marshal rec with
  | .error cause => (.error (.creatingRequestBody cause), c.client)
  | .ok body =>
    let uri := c.baseURL ++ "/v1/" ++ "log"
    match env.newRequestWithContext ctx "POST" uri body with
    | .error cause => (.error (.creatingNewRequest cause), c.client)
    | .ok req =>
      let req := { req with Header := c.headers }
      match c.client.Do req with
      | (client, _, some cause) => (.error (.httpRequestFailure cause), client)
      | (client, none, none) => (.panic, client)
      | (client, some resp, none) =>
        (.ok { StatusCode := resp.StatusCode, Body := resp.Body }, client)

/-- Go `Client.Log`: the outcome of the call and the transport afterwards. -/
def Client.Log (c : Client) (env : Env) (ctx : Context) (modelID : String)
    (modelVersion : Option String) (predictionID : String) (features tags : GoMap RawValue)
    (shapValues : GoMap Float64) (prediction actual : RawValue) (timestamp : Option Time)
    (embeddingFeatures : GoMap (Option Embeddings)) : Result Response × HttpClient :=
  match c.buildRecord env modelID modelVersion predictionID features tags shapValues
      prediction actual timestamp embeddingFeatures with
  | .error e => (.error e, c.client)
  | .panic => (.panic, c.client)
  | .ok rec => c.send env ctx rec

/-! ## Classification of errors -/

/-- The errors raised by validation: empty identifier, unsupported label
type, label variant mismatch or unknown label variant, unsupported feature or
tag value, empty embedding vector. The other three come from the encoder, the
request constructor and the transport. -/
def Err.isValidation : Err → Bool
  | .modelIDEmpty => true
  | .predictionIDEmpty => true
  | .labelsNotSameType _ _ => true
  | .unknownPredictionLabel _ => true
  | .unknownLabelType _ => true
  | .unknownValueType _ => true
  | .embeddingsVectorEmpty => true
  | .creatingRequestBody _ => false
  | .creatingNewRequest _ => false
  | .httpRequestFailure _ => false

/-! ## Vocabulary of the specification -/

/-- The label is of the Categorical variant. -/
def Label.isCategorical (l : Label) : Bool :=
  match l.Data with
  | some (.ScoreCategorical _) => true
  | _ => false

/-- The label is of the Numeric variant. -/
def Label.isNumeric (l : Label) : Bool :=
  match l.Data with
  | some (.Numeric _) => true
  | _ => false

/-- The dynamic types the specification lists as accepted dimension values:
string, bool, signed integers of any width, floats of any precision. -/
def RawValue.isDimensionType : RawValue → Bool
  | .string _ => true
  | .bool _ => true
  | .int _ => true
  | .int8 _ => true
  | .int16 _ => true
  | .int32 _ => true
  | .int64 _ => true
  | .float32 _ => true
  | .float64 _ => true
  | _ => false

/-- The dynamic types the specification lists as accepted label values:
string, bool, signed integers of any width, floats of any precision and the
categorical struct (a `*ScoreCategorical`). -/
def RawValue.isLabelType : RawValue → Bool
  | .scoreCategorical _ => true
  | v => v.isDimensionType

/-- The Embedding value the specification assigns to an input embedding: the
same vector, the link when one is supplied, and the token list as given. -/
def embeddingValue (e : Embeddings) : Value :=
  .Embedding { Vector := e.Vector, RawData := some (.TokenArray e.Data), LinkToData := e.LinkToData }

/-- A Go `map[string]*Embeddings` none of whose entries is the nil pointer. -/
def nonNilEntries (es : GoMap Embeddings) : GoMap (Option Embeddings) :=
  es.map (fun kv => (kv.1, some kv.2))

/-- The wire timestamp `ts` of `Client.Log`: the supplied time, or the wall
clock when none is supplied. -/
def resolvedTimestamp (env : Env) (timestamp : Option Time) : Timestamp :=
  match timestamp with
  | none => timestamppbNew env.now
  | some t => timestamppbNew t

/-- The string `mv` of `Client.Log`: the model version, empty when absent. -/
def modelVersionOrEmpty (modelVersion : Option String) : String :=
  match modelVersion with
  | none => ""
  | some v => v

/-! ## The encoder and the request constructor in the examples -/

/-- The range `protojson` accepts for a `google.protobuf.Timestamp`: seconds
from 0001-01-01T00:00:00Z to 9999-12-31T23:59:59Z and nanoseconds within one
second. -/
def timestampEncodable (ts : Timestamp) : Bool :=
  decide (-62135596800 ≤ ts.Seconds ∧ ts.Seconds ≤ 253402300799 ∧
    0 ≤ ts.Nanos ∧ ts.Nanos ≤ 999999999)

/-- The timestamps a record holds, one per sub-record present. -/
def recordTimestamps (r : Record) : List Timestamp :=
  (match r.Prediction with
    | some p => [p.Timestamp]
    | none => []) ++
  (match r.Actual with
    | some a => [a.Timestamp]
    | none => []) ++
  (match r.FeatureImportances with
    | some fi => [fi.Timestamp]
    | none => [])

/-- The part of `protojson.Marshal` the examples rely on: a record holding a
timestamp outside the accepted range is refused with an error; the bytes
produced otherwise are not modelled. -/
def marshalChecked (r : Record) : Except String String :=
  if (recordTimestamps r).all timestampEncodable then .ok "body"
  else .error "google.protobuf.Timestamp: seconds out of range"

/-- The handle standing for a nil `context.Context`. -/
def nilContext : Context := { id := 1 }

/-- An environment with the two failures of the collaborators of `Client.Log`
used in the examples: the encoder refuses an out-of-range timestamp and
`http.NewRequestWithContext` refuses the nil context. -/
def wireEnv : Env :=
  { now := { Unix := 1700000000, Nanosecond := 0 }
    marshal := marshalChecked
    newRequestWithContext := fun ctx method url body =>
      if ctx = nilContext then .error "net/http: nil Context"
      else .ok { Method := method, URL := url, Body := body, Header := [] } }

/-! ## Fixtures of the tests -/

/-- An environment for the examples: a fixed clock, an encoder and a request
constructor that accept everything. -/
def testEnv : Env :=
  { now := { Unix := 1700000000, Nanosecond := 0 }
    marshal := fun _ => .ok "body"
    newRequestWithContext := fun _ method url body =>
      .ok { Method := method, URL := url, Body := body, Header := [] } }

/-- Go `context.Background()`. -/
def background : Context := { id := 0 }

/-- The embedding of `TestFullLog`: vector `[1.34, 5.67]`, one token and a
link. -/
def testEmbedding : Embeddings :=
  { Vector := [⟨0x3FF570A3D70A3D71⟩, ⟨0x4016AE147AE147AE⟩]
    Data := ["harrison wuz here"]
    LinkToData := some "gs://my/thing" }

/-- The embedding `&Embeddings{Vector: []float64{1.0}}` of `TestLog`. -/
def unitEmbedding : Embeddings :=
  { Vector := [⟨0x3FF0000000000000⟩], Data := [], LinkToData := none }

/-- The `features` map of `TestFullLog`: `x: 1`, `y: "y1"`, `z: 1.33`. -/
def testFeatures : GoMap RawValue :=
  [("x", .int 1), ("y", .string "y1"), ("z", .float64 ⟨0x3FF547AE147AE148⟩)]

/-! ## Auxiliary lemmas -/

theorem Float64_conversion_examples :
    Float64.ofInt 0 = ⟨0⟩ ∧ Float64.ofInt 1 = ⟨0x3FF0000000000000⟩ ∧
    Float64.ofInt (-2) = ⟨0xC000000000000000⟩ ∧
    Float64.ofInt (2 ^ 53 + 1) = ⟨0x4340000000000000⟩ ∧
    Float64.ofInt (2 ^ 63 - 1) = ⟨0x43E0000000000000⟩ ∧
    Float64.ofFloat32 ⟨0x3F800000⟩ = ⟨0x3FF0000000000000⟩ ∧
    Float64.ofFloat32 ⟨0x3DCCCCCD⟩ = ⟨0x3FB99999A0000000⟩ := by
  decide

theorem parseValue_ne_panic (v : RawValue) : parseValue v ≠ .panic := by
  cases v <;> simp [parseValue]

theorem parseValue_error_isValidation (v : RawValue) (e : Err)
    (h : parseValue v = .error e) : e.isValidation = true := by
  cases v <;> simp [parseValue] at h <;> subst h <;> rfl

theorem parseLabel_error_isValidation (v : RawValue) (e : Err)
    (h : parseLabel v = .error e) : e.isValidation = true := by
  cases v <;> first
    | (simp [parseLabel] at h; done)
    | (simp [parseLabel] at h; subst h; rfl)
    | (rename_i p; cases p <;> simp [parseLabel] at h)

theorem validateLabels_error_isValidation (pl al : Option Label) (e : Err)
    (h : validateLabels pl al = some e) : e.isValidation = true := by
  unfold validateLabels at h
  split at h
  · simp at h
  · simp at h
  · split at h
    · split at h
      · simp at h
      · simp at h; subst h; rfl
    · split at h
      · simp at h
      · simp at h; subst h; rfl
    · simp at h; subst h; rfl

theorem parseDimensionsLoop_error_isValidation (dims : List (String × RawValue))
    (dms : GoMap Value) (e : Err) (h : parseDimensionsLoop dims dms = .error e) :
    e.isValidation = true := by
  induction dims generalizing dms with
  | nil => simp [parseDimensionsLoop] at h
  | cons kv rest ih =>
    obtain ⟨k, v⟩ := kv
    unfold parseDimensionsLoop at h
    cases hv : parseValue v with
    | ok pv => rw [hv] at h; exact ih _ h
    | error e' =>
      rw [hv] at h
      simp at h
      subst h
      exact parseValue_error_isValidation v e' hv
    | panic => rw [hv] at h; simp at h

theorem parseEmbeddingsLoop_error_isValidation (es : List (String × Option Embeddings))
    (ret : GoMap Value) (e : Err) (h : parseEmbeddingsLoop es ret = .error e) :
    e.isValidation = true := by
  induction es generalizing ret with
  | nil => simp [parseEmbeddingsLoop] at h
  | cons kv rest ih =>
    obtain ⟨k, p⟩ := kv
    cases p with
    | none => simp [parseEmbeddingsLoop] at h
    | some emb =>
      unfold parseEmbeddingsLoop at h
      split at h
      · simp at h; subst h; rfl
      · exact ih _ h

theorem buildRecord_error_isValidation (c : Client) (env : Env) (modelID : String)
    (modelVersion : Option String) (predictionID : String) (features tags : GoMap RawValue)
    (shapValues : GoMap Float64) (prediction actual : RawValue) (timestamp : Option Time)
    (embeddingFeatures : GoMap (Option Embeddings)) (e : Err)
    (h : c.buildRecord env modelID modelVersion predictionID features tags shapValues
      prediction actual timestamp embeddingFeatures = .error e) :
    e.isValidation = true := by
  unfold Client.buildRecord at h
  split at h
  · simp at h; subst h; rfl
  split at h
  · simp at h; subst h; rfl
  cases hpl : parseLabel prediction with
  | error e1 => rw [hpl] at h; simp at h; subst h; exact parseLabel_error_isValidation _ _ hpl
  | panic => rw [hpl] at h; simp at h
  | ok pl =>
  rw [hpl] at h; dsimp only at h
  cases hal : parseLabel actual with
  | error e1 => rw [hal] at h; simp at h; subst h; exact parseLabel_error_isValidation _ _ hal
  | panic => rw [hal] at h; simp at h
  | ok al =>
  rw [hal] at h; dsimp only at h
  cases hv : validateLabels pl al with
  | some e1 => rw [hv] at h; simp at h; subst h; exact validateLabels_error_isValidation _ _ _ hv
  | none =>
  rw [hv] at h; dsimp only at h
  cases ht : parseDimensions tags with
  | error e1 =>
    rw [ht] at h; simp at h; subst h
    exact parseDimensionsLoop_error_isValidation _ _ _ ht
  | panic => rw [ht] at h; simp at h
  | ok tagsM =>
  rw [ht] at h; dsimp only at h
  cases pl with
  | none => simp at h
  | some p =>
    dsimp only at h
    cases hf : parseDimensions features with
    | error e1 =>
      rw [hf] at h; simp at h; subst h
      exact parseDimensionsLoop_error_isValidation _ _ _ hf
    | panic => rw [hf] at h; simp at h
    | ok fs =>
    rw [hf] at h; dsimp only at h
    cases he : parseEmbeddings embeddingFeatures with
    | error e1 =>
      rw [he] at h; simp at h; subst h
      exact parseEmbeddingsLoop_error_isValidation _ _ _ he
    | panic => rw [he] at h; simp at h
    | ok es => rw [he] at h; simp at h

theorem buildRecord_isOk (c : Client) (env : Env) (modelID : String)
    (modelVersion : Option String) (predictionID : String) (features tags : GoMap RawValue)
    (shapValues : GoMap Float64) (prediction actual : RawValue) (timestamp : Option Time)
    (embeddingFeatures : GoMap (Option Embeddings)) (pl al : Option Label)
    (hm : modelID ≠ "") (hp : predictionID ≠ "")
    (hpl : parseLabel prediction = .ok pl) (hal : parseLabel actual = .ok al)
    (hv : validateLabels pl al = none)
    (htags : ∃ tagsM, parseDimensions tags = .ok tagsM)
    (hfeat : pl ≠ none → (∃ fs, parseDimensions features = .ok fs) ∧
      ∃ es, parseEmbeddings embeddingFeatures = .ok es) :
    ∃ r, c.buildRecord env modelID modelVersion predictionID features tags shapValues
      prediction actual timestamp embeddingFeatures = .ok r := by
  obtain ⟨tagsM, ht⟩ := htags
  unfold Client.buildRecord
  rw [if_neg hm, if_neg hp, hpl]
  dsimp only
  rw [hal]
  dsimp only
  rw [hv]
  dsimp only
  rw [ht]
  dsimp only
  cases pl with
  | none => exact ⟨_, rfl⟩
  | some p =>
    obtain ⟨⟨fs, hf⟩, ⟨es, he⟩⟩ := hfeat (by simp)
    dsimp only
    rw [hf]
    dsimp only
    rw [he]
    exact ⟨_, rfl⟩

theorem send_capturedRequests (c : Client) (env : Env) (ctx : Context) (r : Record)
    (body : String) (req : Request) (hm : env.marshal r = .ok body)
    (hr : env.newRequestWithContext ctx "POST" (c.baseURL ++ "/v1/" ++ "log") body = .ok req) :
    (c.send env ctx r).2.capturedRequests =
      c.client.capturedRequests ++ [{ req with Header := c.headers }] := by
  unfold Client.send
  rw [hm]
  dsimp only
  rw [hr]
  dsimp only
  unfold HttpClient.Do
  rcases hans : c.client.answer c.client.capturedRequests { req with Header := c.headers }
    with ⟨_ | resp, _ | cause⟩ <;> simp [hans]

theorem send_ok (c : Client) (env : Env) (ctx : Context) (r : Record)
    (body : String) (req : Request) (s : Int) (b : String) (hm : env.marshal r = .ok body)
    (hr : env.newRequestWithContext ctx "POST" (c.baseURL ++ "/v1/" ++ "log") body = .ok req)
    (hans : c.client.answer c.client.capturedRequests { req with Header := c.headers } =
      (some { StatusCode := s, Body := b }, none)) :
    (c.send env ctx r).1 = .ok { StatusCode := s, Body := b } := by
  unfold Client.send
  rw [hm]
  dsimp only
  rw [hr]
  dsimp only
  unfold HttpClient.Do
  simp [hans]

theorem send_error_not_validation (c : Client) (env : Env) (ctx : Context) (r : Record)
    (e : Err) (h : (c.send env ctx r).1 = .error e) : e.isValidation = false := by
  unfold Client.send at h
  cases hm : env.marshal r with
  | error cause => rw [hm] at h; simp at h; subst h; rfl
  | ok body =>
    rw [hm] at h
    dsimp only at h
    cases hr : env.newRequestWithContext ctx "POST" (c.baseURL ++ "/v1/" ++ "log") body with
    | error cause => rw [hr] at h; simp at h; subst h; rfl
    | ok req =>
      rw [hr] at h
      dsimp only at h
      unfold HttpClient.Do at h
      rcases hans : c.client.answer c.client.capturedRequests { req with Header := c.headers }
        with ⟨_ | resp, _ | cause⟩ <;> simp [hans] at h <;> subst h <;> rfl

theorem parseValue_error_eq (v : RawValue) (e : Err) (h : parseValue v = .error e) :
    e = .unknownValueType v := by
  cases v <;> simp [parseValue] at h <;> exact h.symm

theorem parseDimensionsLoop_cases (dims : List (String × RawValue)) (dms : GoMap Value) :
    (∃ m, parseDimensionsLoop dims dms = .ok m) ∨
      ∃ kv ∈ dims, parseDimensionsLoop dims dms = .error (.unknownValueType kv.2) := by
  induction dims generalizing dms with
  | nil => exact Or.inl ⟨dms, rfl⟩
  | cons kv rest ih =>
    obtain ⟨k, v⟩ := kv
    unfold parseDimensionsLoop
    cases hv : parseValue v with
    | ok pv =>
      rcases ih (dms.set k pv) with h | ⟨kv, hmem, h⟩
      · exact Or.inl h
      · exact Or.inr ⟨kv, List.mem_cons_of_mem _ hmem, h⟩
    | error e =>
      refine Or.inr ⟨(k, v), List.mem_cons_self _ _, ?_⟩
      rw [parseValue_error_eq v e hv]
    | panic => exact absurd hv (parseValue_ne_panic v)

theorem parseDimensionsLoop_error_of_mem (dims : List (String × RawValue)) (dms : GoMap Value)
    (h : ∃ kv ∈ dims, ∃ e, parseValue kv.2 = .error e) :
    ∃ kv ∈ dims, parseDimensionsLoop dims dms = .error (.unknownValueType kv.2) := by
  induction dims generalizing dms with
  | nil => obtain ⟨kv, hmem, _⟩ := h; simp at hmem
  | cons kv rest ih =>
    obtain ⟨k, v⟩ := kv
    unfold parseDimensionsLoop
    cases hv : parseValue v with
    | ok pv =>
      obtain ⟨kv, hmem, e, he⟩ := h
      rcases List.mem_cons.mp hmem with heq | hrest
      · subst heq
        rw [hv] at he
        simp at he
      · obtain ⟨kv2, hmem2, h2⟩ := ih (dms.set k pv) ⟨kv, hrest, e, he⟩
        exact ⟨kv2, List.mem_cons_of_mem _ hmem2, h2⟩
    | error e =>
      refine ⟨(k, v), List.mem_cons_self _ _, ?_⟩
      rw [parseValue_error_eq v e hv]
    | panic => exact absurd hv (parseValue_ne_panic v)

theorem parseValue_of_not_isDimensionType (v : RawValue) (h : v.isDimensionType = false) :
    parseValue v = .error (.unknownValueType v) := by
  cases v <;> first | rfl | simp [RawValue.isDimensionType] at h

theorem parseLabel_of_not_isLabelType (v : RawValue) (hnil : v ≠ .nil)
    (hty : v.isLabelType = false) : parseLabel v = .error (.unknownLabelType v) := by
  cases v <;> first
    | rfl
    | exact absurd rfl hnil
    | simp [RawValue.isLabelType, RawValue.isDimensionType] at hty

theorem toInt64_of_inIntRange (n : Int) (h : inIntRange 64 n) : toInt64 n = n := by
  unfold inIntRange at h
  unfold toInt64
  norm_num at h ⊢
  omega

theorem inIntRange_64_of_32 (n : Int) (h : inIntRange 32 n) : inIntRange 64 n := by
  unfold inIntRange at h ⊢
  norm_num at h ⊢
  omega

/-! ### Go maps -/

theorem GoMap.get?_set {α : Type} (m : GoMap α) (k k' : String) (v : α) :
    (m.set k v).get? k' = if k = k' then some v else m.get? k' := by
  induction m with
  | nil => simp [GoMap.set, GoMap.get?]
  | cons kv rest ih =>
    obtain ⟨k0, v0⟩ := kv
    by_cases h0 : k0 = k
    · subst h0
      by_cases h1 : k0 = k' <;> simp [GoMap.set, GoMap.get?, h1]
    · by_cases h1 : k0 = k'
      · subst h1
        have : ¬ k = k0 := fun h => h0 h.symm
        simp [GoMap.set, GoMap.get?, h0, this]
      · simp [GoMap.set, GoMap.get?, h0, h1, ih]

theorem GoMap.mem_keys_set {α : Type} (m : GoMap α) (k k' : String) (v : α) :
    k' ∈ (m.set k v).keys ↔ k' = k ∨ k' ∈ m.keys := by
  induction m with
  | nil => simp [GoMap.set, GoMap.keys]
  | cons kv rest ih =>
    obtain ⟨k0, v0⟩ := kv
    by_cases h0 : k0 = k
    · subst h0
      simp [GoMap.set, GoMap.keys]
    · simp only [GoMap.keys] at ih
      simp [GoMap.set, GoMap.keys, h0, ih]
      tauto

theorem GoMap.keys_set_of_not_mem {α : Type} (m : GoMap α) (k : String) (v : α)
    (h : k ∉ m.keys) : (m.set k v).keys = m.keys ++ [k] := by
  induction m with
  | nil => simp [GoMap.set, GoMap.keys]
  | cons kv rest ih =>
    obtain ⟨k0, v0⟩ := kv
    simp only [GoMap.keys, List.map_cons, List.mem_cons, not_or] at h ih ⊢
    have h0 : ¬ k0 = k := fun e => h.1 e.symm
    simp [GoMap.set, h0, ih h.2]

theorem GoMap.keys_set_of_mem {α : Type} (m : GoMap α) (k : String) (v : α)
    (h : k ∈ m.keys) : (m.set k v).keys = m.keys := by
  induction m with
  | nil => simp [GoMap.keys] at h
  | cons kv rest ih =>
    obtain ⟨k0, v0⟩ := kv
    by_cases h0 : k0 = k
    · subst h0
      simp [GoMap.set, GoMap.keys]
    · simp only [GoMap.keys, List.map_cons, List.mem_cons] at h ih ⊢
      have hrest : k ∈ List.map Prod.fst rest := by
        rcases h with h | h
        · exact absurd h.symm h0
        · exact h
      simp [GoMap.set, h0, ih hrest]

theorem GoMap.nodup_keys_set {α : Type} (m : GoMap α) (k : String) (v : α)
    (h : m.keys.Nodup) : (m.set k v).keys.Nodup := by
  by_cases hk : k ∈ m.keys
  · rw [GoMap.keys_set_of_mem m k v hk]
    exact h
  · rw [GoMap.keys_set_of_not_mem m k v hk]
    exact List.Nodup.append h (List.nodup_singleton k) (by
      intro a ha hb
      simp only [List.mem_singleton] at hb
      subst hb
      exact hk ha)

theorem GoMap.length_set_of_not_mem {α : Type} (m : GoMap α) (k : String) (v : α)
    (h : k ∉ m.keys) : (m.set k v).length = m.length + 1 := by
  have := congrArg List.length (GoMap.keys_set_of_not_mem m k v h)
  simpa [GoMap.keys] using this

theorem GoMap.get?_eq_none_iff {α : Type} (m : GoMap α) (k : String) :
    m.get? k = none ↔ k ∉ m.keys := by
  induction m with
  | nil => simp [GoMap.get?, GoMap.keys]
  | cons kv rest ih =>
    obtain ⟨k0, v0⟩ := kv
    simp only [GoMap.keys] at ih
    by_cases h0 : k0 = k
    · simp [GoMap.get?, GoMap.keys, h0]
    · have h1 : ¬ k = k0 := fun e => h0 e.symm
      simp [GoMap.get?, GoMap.keys, h0, h1, ih]

theorem GoMap.get?_of_mem {α : Type} (m : GoMap α) (k : String) (v : α)
    (hnd : m.keys.Nodup) (h : (k, v) ∈ m) : m.get? k = some v := by
  induction m with
  | nil => simp at h
  | cons kv rest ih =>
    obtain ⟨k0, v0⟩ := kv
    simp only [GoMap.keys, List.map_cons, List.nodup_cons] at hnd
    rcases List.mem_cons.mp h with heq | hrest
    · cases heq
      simp [GoMap.get?]
    · have hk : k ∈ List.map Prod.fst rest := List.mem_map.mpr ⟨(k, v), hrest, rfl⟩
      have h0 : ¬ k0 = k := fun e => hnd.1 (e ▸ hk)
      simp only [GoMap.get?, h0, if_false]
      exact ih hnd.2 hrest

theorem mergeEmbeddings_cons (fs : GoMap Value) (kv : String × Value) (es : GoMap Value) :
    mergeEmbeddings fs (kv :: es) = mergeEmbeddings (fs.set kv.1 kv.2) es := rfl

theorem mem_keys_mergeEmbeddings (fs es : GoMap Value) (k : String) :
    k ∈ (mergeEmbeddings fs es).keys ↔ k ∈ fs.keys ∨ k ∈ es.keys := by
  induction es generalizing fs with
  | nil => simp [mergeEmbeddings, GoMap.keys]
  | cons kv rest ih =>
    rw [mergeEmbeddings_cons, ih, GoMap.mem_keys_set]
    simp only [GoMap.keys, List.map_cons, List.mem_cons]
    tauto

theorem get?_mergeEmbeddings_of_not_mem (fs es : GoMap Value) (k : String)
    (h : k ∉ es.keys) : (mergeEmbeddings fs es).get? k = fs.get? k := by
  induction es generalizing fs with
  | nil => rfl
  | cons kv rest ih =>
    simp only [GoMap.keys, List.map_cons, List.mem_cons, not_or] at h
    rw [mergeEmbeddings_cons, ih _ h.2, GoMap.get?_set]
    have : ¬ kv.1 = k := fun e => h.1 e.symm
    simp [this]

theorem get?_mergeEmbeddings_of_mem (fs es : GoMap Value) (k : String) (v : Value)
    (hnd : es.keys.Nodup) (h : (k, v) ∈ es) : (mergeEmbeddings fs es).get? k = some v := by
  induction es generalizing fs with
  | nil => simp at h
  | cons kv rest ih =>
    simp only [GoMap.keys, List.map_cons, List.nodup_cons] at hnd
    rw [mergeEmbeddings_cons]
    rcases List.mem_cons.mp h with heq | hrest
    · subst heq
      rw [get?_mergeEmbeddings_of_not_mem _ _ _ hnd.1, GoMap.get?_set]
      simp
    · exact ih _ hnd.2 hrest

theorem nodup_keys_mergeEmbeddings (fs es : GoMap Value) (h : fs.keys.Nodup) :
    (mergeEmbeddings fs es).keys.Nodup := by
  induction es generalizing fs with
  | nil => exact h
  | cons kv rest ih =>
    rw [mergeEmbeddings_cons]
    exact ih _ (GoMap.nodup_keys_set fs kv.1 kv.2 h)

theorem length_mergeEmbeddings (fs es : GoMap Value) (hnd : es.keys.Nodup)
    (hdisj : ∀ k ∈ es.keys, k ∉ fs.keys) :
    (mergeEmbeddings fs es).length = fs.length + es.length := by
  induction es generalizing fs with
  | nil => rfl
  | cons kv rest ih =>
    simp only [GoMap.keys, List.map_cons, List.nodup_cons, List.mem_cons, forall_eq_or_imp]
      at hnd hdisj
    rw [mergeEmbeddings_cons, ih _ hnd.2, GoMap.length_set_of_not_mem fs kv.1 kv.2 hdisj.1]
    · simp only [List.length_cons]
      omega
    · intro k hk hmem
      rcases (GoMap.mem_keys_set fs kv.1 k kv.2).mp hmem with heq | hfs
      · subst heq
        exact hnd.1 hk
      · exact hdisj.2 k hk hfs

theorem appendTokens_eq (data : List String) : appendTokens data = data := by
  have h : ∀ (acc : List String),
      List.foldl (fun tokens v => tokens ++ [v]) acc data = acc ++ data := by
    induction data with
    | nil => intro acc; simp
    | cons d rest ih => intro acc; simp [ih]
  simpa [appendTokens] using h []

/-! ### Entry-wise images of a map -/

theorem keys_eq_of_forall₂ {α β : Type} (P : α → β → Prop) (xs : GoMap α) (ys : GoMap β)
    (h : List.Forall₂ (fun a b => b.1 = a.1 ∧ P a.2 b.2) xs ys) : ys.keys = xs.keys := by
  induction h with
  | nil => rfl
  | cons hab _ ih =>
    simp only [GoMap.keys, List.map_cons] at ih ⊢
    rw [hab.1, ih]

theorem length_eq_of_forall₂ {α β : Type} (P : α → β → Prop) (xs : GoMap α) (ys : GoMap β)
    (h : List.Forall₂ (fun a b => b.1 = a.1 ∧ P a.2 b.2) xs ys) : ys.length = xs.length := by
  have := congrArg List.length (keys_eq_of_forall₂ P xs ys h)
  simpa [GoMap.keys] using this

theorem image_of_mem_of_forall₂ {α β : Type} (P : α → β → Prop) (xs : GoMap α) (ys : GoMap β)
    (h : List.Forall₂ (fun a b => b.1 = a.1 ∧ P a.2 b.2) xs ys) (k : String) (v : α)
    (hmem : (k, v) ∈ xs) : ∃ w, (k, w) ∈ ys ∧ P v w := by
  induction h with
  | nil => simp at hmem
  | @cons a b xs' ys' hab _ ih =>
    rcases List.mem_cons.mp hmem with heq | hrest
    · subst heq
      refine ⟨b.2, ?_, hab.2⟩
      have : b = (k, b.2) := Prod.ext hab.1 rfl
      rw [← this]
      exact List.mem_cons_self _ _
    · obtain ⟨w, hw, hP⟩ := ih hrest
      exact ⟨w, List.mem_cons_of_mem _ hw, hP⟩

/-! ### The loops as entry-wise images merged into the map built so far -/

theorem parseDimensionsLoop_ok_inv (dims : List (String × RawValue)) (dms ret : GoMap Value)
    (h : parseDimensionsLoop dims dms = .ok ret) :
    ∃ parsed : GoMap Value,
      List.Forall₂ (fun a b => b.1 = a.1 ∧ parseValue a.2 = .ok b.2) dims parsed ∧
      ret = mergeEmbeddings dms parsed := by
  induction dims generalizing dms with
  | nil =>
    simp only [parseDimensionsLoop, Result.ok.injEq] at h
    exact ⟨[], List.Forall₂.nil, h.symm⟩
  | cons kv rest ih =>
    obtain ⟨k, v⟩ := kv
    unfold parseDimensionsLoop at h
    cases hv : parseValue v with
    | ok pv =>
      rw [hv] at h
      obtain ⟨parsed, hall, hret⟩ := ih _ h
      exact ⟨(k, pv) :: parsed, List.Forall₂.cons ⟨rfl, hv⟩ hall, hret⟩
    | error e => rw [hv] at h; simp at h
    | panic => rw [hv] at h; simp at h

theorem parseDimensionsLoop_ok_of_forall (dims : List (String × RawValue)) (dms : GoMap Value)
    (h : ∀ kv ∈ dims, ∃ pv, parseValue kv.2 = .ok pv) :
    ∃ ret, parseDimensionsLoop dims dms = .ok ret := by
  induction dims generalizing dms with
  | nil => exact ⟨dms, rfl⟩
  | cons kv rest ih =>
    obtain ⟨k, v⟩ := kv
    obtain ⟨pv, hpv⟩ := h (k, v) (List.mem_cons_self _ _)
    unfold parseDimensionsLoop
    rw [hpv]
    exact ih _ (fun kv hkv => h kv (List.mem_cons_of_mem _ hkv))

theorem parseEmbeddingsLoop_ok_inv (es : List (String × Option Embeddings))
    (ret0 ret : GoMap Value) (h : parseEmbeddingsLoop es ret0 = .ok ret) :
    ∃ parsed : GoMap Value,
      List.Forall₂ (fun a b => b.1 = a.1 ∧
        ∃ e, a.2 = some e ∧ e.Vector ≠ [] ∧ b.2 = embeddingValue e) es parsed ∧
      ret = mergeEmbeddings ret0 parsed := by
  induction es generalizing ret0 with
  | nil =>
    simp only [parseEmbeddingsLoop, Result.ok.injEq] at h
    exact ⟨[], List.Forall₂.nil, h.symm⟩
  | cons kv rest ih =>
    obtain ⟨k, p⟩ := kv
    cases p with
    | none => simp [parseEmbeddingsLoop] at h
    | some e =>
      unfold parseEmbeddingsLoop at h
      split at h
      · simp at h
      · rename_i hlen
        obtain ⟨parsed, hall, hret⟩ := ih _ h
        refine ⟨(k, embeddingValue e) :: parsed, List.Forall₂.cons ⟨rfl, e, rfl, ?_, rfl⟩ hall, ?_⟩
        · intro hnil
          exact hlen (by rw [hnil]; rfl)
        · rw [hret, mergeEmbeddings_cons]
          simp only [embeddingValue, appendTokens_eq]

theorem parseEmbeddingsLoop_nonNil_ok (es : GoMap Embeddings) (ret0 : GoMap Value)
    (h : ∀ kv ∈ es, kv.2.Vector ≠ []) :
    ∃ ret, parseEmbeddingsLoop (nonNilEntries es) ret0 = .ok ret := by
  induction es generalizing ret0 with
  | nil => exact ⟨ret0, rfl⟩
  | cons kv rest ih =>
    obtain ⟨k, e⟩ := kv
    have he : e.Vector ≠ [] := h (k, e) (List.mem_cons_self _ _)
    have hlen : ¬ e.Vector.length = 0 := fun hl => he (List.length_eq_zero.mp hl)
    simp only [nonNilEntries, List.map_cons]
    unfold parseEmbeddingsLoop
    rw [if_neg hlen]
    exact ih _ (fun kv hkv => h kv (List.mem_cons_of_mem _ hkv))

theorem parseEmbeddingsLoop_nonNil_error (es : GoMap Embeddings) (ret0 : GoMap Value)
    (h : ∃ kv ∈ es, kv.2.Vector = []) :
    parseEmbeddingsLoop (nonNilEntries es) ret0 = .error .embeddingsVectorEmpty := by
  induction es generalizing ret0 with
  | nil => obtain ⟨kv, hmem, _⟩ := h; simp at hmem
  | cons kv rest ih =>
    obtain ⟨k, e⟩ := kv
    simp only [nonNilEntries, List.map_cons]
    unfold parseEmbeddingsLoop
    by_cases hlen : e.Vector.length = 0
    · rw [if_pos hlen]
    · rw [if_neg hlen]
      obtain ⟨kv, hmem, hkv⟩ := h
      rcases List.mem_cons.mp hmem with heq | hrest
      · subst heq
        exact absurd (by rw [hkv]; rfl) hlen
      · exact ih _ ⟨kv, hrest, hkv⟩

theorem keys_nonNilEntries (es : GoMap Embeddings) : (nonNilEntries es).keys = es.keys := by
  simp [nonNilEntries, GoMap.keys, List.map_map, Function.comp_def]

theorem mem_nonNilEntries (es : GoMap Embeddings) (k : String) (e : Embeddings)
    (h : (k, e) ∈ es) : (k, some e) ∈ nonNilEntries es :=
  List.mem_map.mpr ⟨(k, e), h, rfl⟩

theorem exists_mem_of_mem_keys {α : Type} (m : GoMap α) (k : String) (h : k ∈ m.keys) :
    ∃ v, (k, v) ∈ m := by
  obtain ⟨⟨k', v⟩, hmem, hk⟩ := List.mem_map.mp h
  simp only at hk
  subst hk
  exact ⟨v, hmem⟩

theorem mem_keys_of_mem {α : Type} (m : GoMap α) (k : String) (v : α) (h : (k, v) ∈ m) :
    k ∈ m.keys :=
  List.mem_map.mpr ⟨(k, v), h, rfl⟩

theorem parseEmbeddings_nonNil_entries (es : GoMap Embeddings) (ret : GoMap Value)
    (h : parseEmbeddings (nonNilEntries es) = .ok ret) :
    ret.keys.Nodup ∧ (∀ k, k ∈ ret.keys ↔ k ∈ es.keys) ∧
    (es.keys.Nodup → ret.length = es.length ∧
      ∀ k e, (k, e) ∈ es → ret.get? k = some (embeddingValue e)) := by
  obtain ⟨parsed, hall, hret⟩ := parseEmbeddingsLoop_ok_inv _ _ _ h
  have hkeys : parsed.keys = es.keys := by
    rw [keys_eq_of_forall₂ (fun a b => ∃ e, a = some e ∧ e.Vector ≠ [] ∧ b = embeddingValue e)
      _ _ hall, keys_nonNilEntries]
  subst hret
  refine ⟨nodup_keys_mergeEmbeddings _ _ List.nodup_nil, ?_, ?_⟩
  · intro k
    rw [mem_keys_mergeEmbeddings, hkeys]
    simp [GoMap.keys]
  · intro hnd
    have hnd' : parsed.keys.Nodup := hkeys ▸ hnd
    refine ⟨?_, ?_⟩
    · rw [length_mergeEmbeddings _ _ hnd' (by simp [GoMap.keys]),
        length_eq_of_forall₂ (fun a b => ∃ e, a = some e ∧ e.Vector ≠ [] ∧ b = embeddingValue e)
          _ _ hall]
      simp [nonNilEntries]
    · intro k e hmem
      obtain ⟨w, hw, e', he', _, hwe⟩ :=
        image_of_mem_of_forall₂ (fun a b => ∃ e, a = some e ∧ e.Vector ≠ [] ∧ b = embeddingValue e)
          _ _ hall k (some e) (mem_nonNilEntries es k e hmem)
      cases he'
      rw [get?_mergeEmbeddings_of_mem _ _ k w hnd' hw, hwe]

/-! ### Shape of the record built by `Client.Log` -/

theorem parseLabel_ok_none_iff (v : RawValue) : parseLabel v = .ok none ↔ v = .nil := by
  constructor
  · intro h
    cases v <;> first
      | rfl
      | (simp [parseLabel] at h; done)
      | (rename_i p; cases p <;> simp [parseLabel] at h)
  · rintro rfl
    rfl

theorem parseLabel_ok_some_variant (v : RawValue) (l : Label)
    (h : parseLabel v = .ok (some l)) : l.isCategorical = true ∨ l.isNumeric = true := by
  cases v <;> first
    | (simp [parseLabel] at h; done)
    | (simp [parseLabel] at h; subst h; first | exact Or.inl rfl | exact Or.inr rfl)
    | (rename_i p; cases p <;> simp [parseLabel] at h; subst h; exact Or.inl rfl)

theorem buildRecord_ok_inv (c : Client) (env : Env) (modelID : String)
    (modelVersion : Option String) (predictionID : String) (features tags : GoMap RawValue)
    (shapValues : GoMap Float64) (prediction actual : RawValue) (timestamp : Option Time)
    (embeddingFeatures : GoMap (Option Embeddings)) (r : Record)
    (h : c.buildRecord env modelID modelVersion predictionID features tags shapValues
      prediction actual timestamp embeddingFeatures = .ok r) :
    modelID ≠ "" ∧ predictionID ≠ "" ∧
    ∃ pl al tagsM, parseLabel prediction = .ok pl ∧ parseLabel actual = .ok al ∧
      validateLabels pl al = none ∧ parseDimensions tags = .ok tagsM ∧
      r.SpaceKey = c.spaceKey ∧ r.ModelId = modelID ∧ r.PredictionId = predictionID ∧
      ((pl = none ∧ r.Prediction = none) ∨
        ∃ p fs es, pl = some p ∧ parseDimensions features = .ok fs ∧
          parseEmbeddings embeddingFeatures = .ok es ∧
          r.Prediction = some
            { Timestamp := resolvedTimestamp env timestamp
              ModelVersion := modelVersionOrEmpty modelVersion
              Label := p
              Features := mergeEmbeddings fs es
              Tags := tagsM }) ∧
      r.Actual = al.map (fun a =>
        { Label := a, Tags := tagsM, Timestamp := resolvedTimestamp env timestamp }) ∧
      r.FeatureImportances =
        if 0 < shapValues.length then
          some { FeatureImportances := shapValues
                 ModelVersion := modelVersionOrEmpty modelVersion
                 Timestamp := resolvedTimestamp env timestamp }
        else none := by
  unfold Client.buildRecord at h
  split at h
  · simp at h
  rename_i hm
  split at h
  · simp at h
  rename_i hp
  refine ⟨hm, hp, ?_⟩
  cases hpl : parseLabel prediction with
  | error e1 => rw [hpl] at h; simp at h
  | panic => rw [hpl] at h; simp at h
  | ok pl =>
  rw [hpl] at h; dsimp only at h
  cases hal : parseLabel actual with
  | error e1 => rw [hal] at h; simp at h
  | panic => rw [hal] at h; simp at h
  | ok al =>
  rw [hal] at h; dsimp only at h
  cases hv : validateLabels pl al with
  | some e1 => rw [hv] at h; simp at h
  | none =>
  rw [hv] at h; dsimp only at h
  cases ht : parseDimensions tags with
  | error e1 => rw [ht] at h; simp at h
  | panic => rw [ht] at h; simp at h
  | ok tagsM =>
  rw [ht] at h; dsimp only at h
  refine ⟨pl, al, tagsM, rfl, rfl, hv, rfl, ?_⟩
  cases pl with
  | none =>
    simp only [Result.ok.injEq] at h
    subst h
    cases al <;> by_cases hs : 0 < shapValues.length <;>
      simp [hs, resolvedTimestamp, modelVersionOrEmpty]
  | some p =>
    dsimp only at h
    cases hf : parseDimensions features with
    | error e1 => rw [hf] at h; simp at h
    | panic => rw [hf] at h; simp at h
    | ok fs =>
    rw [hf] at h; dsimp only at h
    cases he : parseEmbeddings embeddingFeatures with
    | error e1 => rw [he] at h; simp at h
    | panic => rw [he] at h; simp at h
    | ok es =>
    rw [he] at h
    simp only [Result.ok.injEq] at h
    subst h
    cases al <;> by_cases hs : 0 < shapValues.length <;>
      simp [hs, resolvedTimestamp, modelVersionOrEmpty]

theorem send_ok_inv (c : Client) (env : Env) (ctx : Context) (r : Record) (resp : Response)
    (h : (c.send env ctx r).1 = .ok resp) : ∃ body, env.marshal r = .ok body := by
  unfold Client.send at h
  cases hm : env.marshal r with
  | error cause => rw [hm] at h; simp at h
  | ok body => exact ⟨body, rfl⟩

theorem Log_ok_inv (c : Client) (env : Env) (ctx : Context) (modelID : String)
    (modelVersion : Option String) (predictionID : String) (features tags : GoMap RawValue)
    (shapValues : GoMap Float64) (prediction actual : RawValue) (timestamp : Option Time)
    (embeddingFeatures : GoMap (Option Embeddings)) (resp : Response)
    (h : (c.Log env ctx modelID modelVersion predictionID features tags shapValues
      prediction actual timestamp embeddingFeatures).1 = .ok resp) :
    ∃ r body, c.buildRecord env modelID modelVersion predictionID features tags shapValues
      prediction actual timestamp embeddingFeatures = .ok r ∧ env.marshal r = .ok body := by
  unfold Client.Log at h
  cases hb : c.buildRecord env modelID modelVersion predictionID features tags shapValues
      prediction actual timestamp embeddingFeatures with
  | error e => rw [hb] at h; simp at h
  | panic => rw [hb] at h; simp at h
  | ok r =>
    rw [hb] at h
    obtain ⟨body, hbody⟩ := send_ok_inv c env ctx r resp h
    exact ⟨r, body, rfl, hbody⟩

theorem GoMap.mem_of_get?_eq_some {α : Type} (m : GoMap α) (k : String) (v : α)
    (h : m.get? k = some v) : (k, v) ∈ m := by
  induction m with
  | nil => simp [GoMap.get?] at h
  | cons kv rest ih =>
    obtain ⟨k0, v0⟩ := kv
    by_cases h0 : k0 = k
    · subst h0
      simp only [GoMap.get?, if_true, Option.some.injEq] at h
      subst h
      exact List.mem_cons_self _ _
    · simp only [GoMap.get?, h0, if_false] at h
      exact List.mem_cons_of_mem _ (ih h)

theorem parseDimensions_ok_entries (dims : GoMap RawValue) (ret : GoMap Value)
    (h : parseDimensions dims = .ok ret) :
    ret.keys.Nodup ∧ (∀ k, k ∈ ret.keys ↔ k ∈ dims.keys) ∧
    (∀ kv ∈ dims, ∃ pv, parseValue kv.2 = .ok pv) ∧
    (dims.keys.Nodup → ret.length = dims.length ∧
      ∀ k v, (k, v) ∈ dims → ∃ pv, parseValue v = .ok pv ∧ ret.get? k = some pv) := by
  obtain ⟨parsed, hall, hret⟩ := parseDimensionsLoop_ok_inv _ _ _ h
  have hkeys : parsed.keys = dims.keys :=
    keys_eq_of_forall₂ (fun a b => parseValue a = .ok b) _ _ hall
  subst hret
  refine ⟨nodup_keys_mergeEmbeddings _ _ List.nodup_nil, ?_, ?_, ?_⟩
  · intro k
    rw [mem_keys_mergeEmbeddings, hkeys]
    simp [GoMap.keys]
  · rintro ⟨k, v⟩ hmem
    obtain ⟨w, _, hw⟩ :=
      image_of_mem_of_forall₂ (fun a b => parseValue a = .ok b) _ _ hall k v hmem
    exact ⟨w, hw⟩
  · intro hnd
    have hnd' : parsed.keys.Nodup := hkeys ▸ hnd
    refine ⟨?_, ?_⟩
    · rw [length_mergeEmbeddings _ _ hnd' (by simp [GoMap.keys]),
        length_eq_of_forall₂ (fun a b => parseValue a = .ok b) _ _ hall]
      simp
    · intro k v hmem
      obtain ⟨w, hmemw, hw⟩ :=
        image_of_mem_of_forall₂ (fun a b => parseValue a = .ok b) _ _ hall k v hmem
      exact ⟨w, hw, get?_mergeEmbeddings_of_mem _ _ k w hnd' hmemw⟩

theorem parseEmbeddings_ok_entries (es : GoMap (Option Embeddings)) (ret : GoMap Value)
    (h : parseEmbeddings es = .ok ret) :
    ret.keys.Nodup ∧ (∀ k, k ∈ ret.keys ↔ k ∈ es.keys) ∧
    (es.keys.Nodup → ret.length = es.length ∧
      ∀ k pe, (k, pe) ∈ es → ∃ e, pe = some e ∧ ret.get? k = some (embeddingValue e)) := by
  obtain ⟨parsed, hall, hret⟩ := parseEmbeddingsLoop_ok_inv _ _ _ h
  have hkeys : parsed.keys = es.keys :=
    keys_eq_of_forall₂ (fun a b => ∃ e, a = some e ∧ e.Vector ≠ [] ∧ b = embeddingValue e)
      _ _ hall
  subst hret
  refine ⟨nodup_keys_mergeEmbeddings _ _ List.nodup_nil, ?_, ?_⟩
  · intro k
    rw [mem_keys_mergeEmbeddings, hkeys]
    simp [GoMap.keys]
  · intro hnd
    have hnd' : parsed.keys.Nodup := hkeys ▸ hnd
    refine ⟨?_, ?_⟩
    · rw [length_mergeEmbeddings _ _ hnd' (by simp [GoMap.keys]),
        length_eq_of_forall₂
          (fun a b => ∃ e, a = some e ∧ e.Vector ≠ [] ∧ b = embeddingValue e) _ _ hall]
      simp
    · intro k pe hmem
      obtain ⟨w, hmemw, e, he, _, hwe⟩ :=
        image_of_mem_of_forall₂
          (fun a b => ∃ e, a = some e ∧ e.Vector ≠ [] ∧ b = embeddingValue e)
          _ _ hall k pe hmem
      exact ⟨e, he, by rw [get?_mergeEmbeddings_of_mem _ _ k w hnd' hmemw, hwe]⟩

theorem parseDimensionsLoop_error_inv (dims : List (String × RawValue)) (dms : GoMap Value)
    (e : Err) (h : parseDimensionsLoop dims dms = .error e) :
    ∃ kv ∈ dims, parseValue kv.2 = .error e := by
  induction dims generalizing dms with
  | nil => simp [parseDimensionsLoop] at h
  | cons kv rest ih =>
    obtain ⟨k, v⟩ := kv
    unfold parseDimensionsLoop at h
    cases hv : parseValue v with
    | ok pv =>
      rw [hv] at h
      obtain ⟨kv2, hmem, h2⟩ := ih _ h
      exact ⟨kv2, List.mem_cons_of_mem _ hmem, h2⟩
    | error e' =>
      rw [hv] at h
      simp only [Result.error.injEq] at h
      subst h
      exact ⟨(k, v), List.mem_cons_self _ _, hv⟩
    | panic => rw [hv] at h; simp at h

theorem parseDimensionsLoop_first_error (dims : List (String × RawValue)) (dms : GoMap Value)
    (h : ¬ ∀ kv ∈ dims, ∃ pv, parseValue kv.2 = .ok pv) :
    ∃ pre kv post, dims = pre ++ kv :: post ∧
      (∀ x ∈ pre, ∃ pv, parseValue x.2 = .ok pv) ∧
      parseValue kv.2 = .error (.unknownValueType kv.2) ∧
      parseDimensionsLoop dims dms = .error (.unknownValueType kv.2) := by
  induction dims generalizing dms with
  | nil => exact absurd (fun kv hkv => absurd hkv (List.not_mem_nil kv)) h
  | cons kv rest ih =>
    obtain ⟨k, v⟩ := kv
    cases hv : parseValue v with
    | ok pv =>
      have hrest : ¬ ∀ kv ∈ rest, ∃ pv, parseValue kv.2 = .ok pv := by
        intro hall
        apply h
        intro kv hkv
        rcases List.mem_cons.mp hkv with heq | hmem
        · subst heq
          exact ⟨pv, hv⟩
        · exact hall kv hmem
      obtain ⟨pre, kv2, post, hsplit, hpre, hkv2, hloop⟩ := ih (dms.set k pv) hrest
      refine ⟨(k, v) :: pre, kv2, post, by rw [hsplit]; rfl, ?_, hkv2, ?_⟩
      · intro x hx
        rcases List.mem_cons.mp hx with heq | hmem
        · subst heq
          exact ⟨pv, hv⟩
        · exact hpre x hmem
      · unfold parseDimensionsLoop
        rw [hv]
        exact hloop
    | error e =>
      have he := parseValue_error_eq v e hv
      subst he
      refine ⟨[], (k, v), rest, rfl, fun x hx => absurd hx (List.not_mem_nil x), hv, ?_⟩
      unfold parseDimensionsLoop
      rw [hv]
    | panic => exact absurd hv (parseValue_ne_panic v)

/-! ## Claims about `Client.Log` and the transport -/

/-- C1 fails as stated: two calls with non-empty identifiers whose inputs
pass validation, against a transport that answers every request with status
200, return an error and send nothing. In the first the supplied time lies in
the year 10000 and the encoder refuses the record; in the second the context
is nil and the request cannot be constructed. -/
theorem Log_valid_call_sends_nothing_on_encoder_or_request_error :
    parseLabel (.float64 ⟨0x3FE0000000000000⟩) =
      .ok (some ⟨some (.Numeric ⟨0x3FE0000000000000⟩)⟩) ∧
    parseLabel .nil = .ok none ∧
    validateLabels (some ⟨some (.Numeric ⟨0x3FE0000000000000⟩)⟩) none = none ∧
    parseDimensions [] = .ok [] ∧ parseEmbeddings [] = .ok [] ∧
    (∀ history req, testClient.client.answer history req =
      (some { StatusCode := 200, Body := "" }, none)) ∧
    testClient.Log wireEnv background "mk" none "xyz" [] [] []
      (.float64 ⟨0x3FE0000000000000⟩) .nil
      (some { Unix := 253402300800, Nanosecond := 0 }) [] =
        (.error (.creatingRequestBody "google.protobuf.Timestamp: seconds out of range"),
          testClient.client) ∧
    testClient.Log wireEnv nilContext "mk" none "xyz" [] [] []
      (.float64 ⟨0x3FE0000000000000⟩) .nil none [] =
        (.error (.creatingNewRequest "net/http: nil Context"), testClient.client) ∧
    testClient.client.capturedRequests = [] :=
  ⟨rfl, rfl, rfl, rfl, rfl, fun _ _ => rfl, rfl, rfl, rfl⟩

/-- C1, amended: a call to `Log` with non-empty `modelID` and `predictionID`
whose inputs pass validation (both labels parse, the labels are consistent,
the tags parse and, when a prediction is supplied, the features and
embeddings parse), whose record the encoder accepts and for which the request
can be constructed, hands exactly one request to the transport; and whenever
the transport answers that request with status code `s` and body `b` (any
`s`), `Log` returns `Response{StatusCode: s, Body: b}` with no error. -/
theorem Log_valid_call_issues_one_request (c : Client) (env : Env) (ctx : Context)
    (modelID : String) (modelVersion : Option String) (predictionID : String)
    (features tags : GoMap RawValue) (shapValues : GoMap Float64)
    (prediction actual : RawValue) (timestamp : Option Time)
    (embeddingFeatures : GoMap (Option Embeddings)) (pl al : Option Label)
    (hm : modelID ≠ "") (hp : predictionID ≠ "")
    (hpl : parseLabel prediction = .ok pl) (hal : parseLabel actual = .ok al)
    (hv : validateLabels pl al = none)
    (htags : ∃ tagsM, parseDimensions tags = .ok tagsM)
    (hfeat : pl ≠ none → (∃ fs, parseDimensions features = .ok fs) ∧
      ∃ es, parseEmbeddings embeddingFeatures = .ok es)
    (hencode : ∀ r, c.buildRecord env modelID modelVersion predictionID features tags
      shapValues prediction actual timestamp embeddingFeatures = .ok r →
      ∃ body req, env.marshal r = .ok body ∧
        env.newRequestWithContext ctx "POST" (c.baseURL ++ "/v1/" ++ "log") body = .ok req) :
    ∃ req : Request,
      (c.Log env ctx modelID modelVersion predictionID features tags shapValues prediction
        actual timestamp embeddingFeatures).2.capturedRequests =
          c.client.capturedRequests ++ [req] ∧
      ∀ (s : Int) (b : String),
        c.client.answer c.client.capturedRequests req =
          (some { StatusCode := s, Body := b }, none) →
        (c.Log env ctx modelID modelVersion predictionID features tags shapValues prediction
          actual timestamp embeddingFeatures).1 = .ok { StatusCode := s, Body := b } := by
  obtain ⟨r, hr⟩ := buildRecord_isOk c env modelID modelVersion predictionID features tags
    shapValues prediction actual timestamp embeddingFeatures pl al hm hp hpl hal hv htags hfeat
  obtain ⟨body, req, hbody, hreq⟩ := hencode r hr
  refine ⟨{ req with Header := c.headers }, ?_, ?_⟩
  · unfold Client.Log
    rw [hr]
    exact send_capturedRequests c env ctx r body req hbody hreq
  · intro s b hans
    unfold Client.Log
    rw [hr]
    exact send_ok c env ctx r body req s b hbody hreq hans

/-- C1, amended, on the call of `TestFullLog` with the range-checking encoder:
one request, and the configured status 200 comes back. -/
theorem Log_valid_call_issues_one_request_witness :
    ∃ req : Request,
      (testClient.Log wireEnv background "sdk_test_model" (some "test_model_version")
        "test_pred_id" testFeatures [("t", .int 1)] [("s", ⟨0x3FFC28F5C28F5C29⟩)]
        (.float64 ⟨0x3FE4CCCCCCCCCCCD⟩) (.float64 ⟨0x3FD3333333333333⟩)
        (some { Unix := 1650000000, Nanosecond := 5 })
        [("e", some testEmbedding)]).2.capturedRequests =
          testClient.client.capturedRequests ++ [req] ∧
      ∀ (s : Int) (b : String),
        testClient.client.answer testClient.client.capturedRequests req =
          (some { StatusCode := s, Body := b }, none) →
        (testClient.Log wireEnv background "sdk_test_model" (some "test_model_version")
          "test_pred_id" testFeatures [("t", .int 1)] [("s", ⟨0x3FFC28F5C28F5C29⟩)]
          (.float64 ⟨0x3FE4CCCCCCCCCCCD⟩) (.float64 ⟨0x3FD3333333333333⟩)
          (some { Unix := 1650000000, Nanosecond := 5 })
          [("e", some testEmbedding)]).1 = .ok { StatusCode := s, Body := b } :=
  Log_valid_call_issues_one_request testClient wireEnv background "sdk_test_model"
    (some "test_model_version") "test_pred_id" testFeatures [("t", .int 1)]
    [("s", ⟨0x3FFC28F5C28F5C29⟩)] (.float64 ⟨0x3FE4CCCCCCCCCCCD⟩)
    (.float64 ⟨0x3FD3333333333333⟩) (some { Unix := 1650000000, Nanosecond := 5 })
    [("e", some testEmbedding)]
    (some ⟨some (.Numeric ⟨0x3FE4CCCCCCCCCCCD⟩)⟩) (some ⟨some (.Numeric ⟨0x3FD3333333333333⟩)⟩)
    (by decide) (by decide) rfl rfl rfl ⟨_, rfl⟩ (fun _ => ⟨⟨_, rfl⟩, ⟨_, rfl⟩⟩)
    (fun r hr => by
      have hr2 : Result.ok _ = Result.ok r := hr
      cases hr2
      exact ⟨_, _, rfl, rfl⟩)

/-- C2: when `modelID` is empty or `predictionID` is empty, `Log` returns the
validation error for the empty identifier, whatever the other arguments are,
and the transport receives no request. -/
theorem Log_empty_identifier_rejected (c : Client) (env : Env) (ctx : Context)
    (modelID : String) (modelVersion : Option String) (predictionID : String)
    (features tags : GoMap RawValue) (shapValues : GoMap Float64)
    (prediction actual : RawValue) (timestamp : Option Time)
    (embeddingFeatures : GoMap (Option Embeddings))
    (h : modelID = "" ∨ predictionID = "") :
    (∃ e : Err,
      (c.Log env ctx modelID modelVersion predictionID features tags shapValues prediction
        actual timestamp embeddingFeatures).1 = .error e ∧
      (e = .modelIDEmpty ∨ e = .predictionIDEmpty)) ∧
    (c.Log env ctx modelID modelVersion predictionID features tags shapValues prediction
      actual timestamp embeddingFeatures).2.capturedRequests = c.client.capturedRequests := by
  unfold Client.Log Client.buildRecord
  by_cases hm : modelID = ""
  · rw [if_pos hm]
    exact ⟨⟨_, rfl, Or.inl rfl⟩, rfl⟩
  · have hp : predictionID = "" := h.resolve_left hm
    rw [if_neg hm, if_pos hp]
    exact ⟨⟨_, rfl, Or.inr rfl⟩, rfl⟩

/-- C2, on a call with an empty `predictionID` and labels, tags, features and
embeddings that could not be parsed. -/
theorem Log_empty_identifier_rejected_witness :
    (∃ e : Err,
      (testClient.Log testEnv background "mk" none "" [("x", .uint64 2)]
        [("x", .embeddings (some testEmbedding))] [] (.scoreCategorical none)
        (.embeddings none) none [("e", none)]).1 = .error e ∧
      (e = .modelIDEmpty ∨ e = .predictionIDEmpty)) ∧
    (testClient.Log testEnv background "mk" none "" [("x", .uint64 2)]
      [("x", .embeddings (some testEmbedding))] [] (.scoreCategorical none)
      (.embeddings none) none [("e", none)]).2.capturedRequests =
        testClient.client.capturedRequests :=
  Log_empty_identifier_rejected testClient testEnv background "mk" none "" [("x", .uint64 2)]
    [("x", .embeddings (some testEmbedding))] [] (.scoreCategorical none)
    (.embeddings none) none [("e", none)] (Or.inr rfl)

/-- C3: whenever `Log` returns an error produced by validation, the
transport has received no request: its list of captured requests is the same
after the call as before it. -/
theorem Log_validation_error_sends_nothing (c : Client) (env : Env) (ctx : Context)
    (modelID : String) (modelVersion : Option String) (predictionID : String)
    (features tags : GoMap RawValue) (shapValues : GoMap Float64)
    (prediction actual : RawValue) (timestamp : Option Time)
    (embeddingFeatures : GoMap (Option Embeddings)) (e : Err)
    (herr : (c.Log env ctx modelID modelVersion predictionID features tags shapValues
      prediction actual timestamp embeddingFeatures).1 = .error e)
    (hval : e.isValidation = true) :
    (c.Log env ctx modelID modelVersion predictionID features tags shapValues prediction
      actual timestamp embeddingFeatures).2.capturedRequests = c.client.capturedRequests := by
  unfold Client.Log at herr ⊢
  cases hb : c.buildRecord env modelID modelVersion predictionID features tags shapValues
      prediction actual timestamp embeddingFeatures with
  | error e1 => rfl
  | panic => rfl
  | ok r =>
    rw [hb] at herr
    dsimp only at herr
    have hno := send_error_not_validation c env ctx r e herr
    rw [hval] at hno
    exact absurd hno (by decide)

/-- C3, on the call of `TestLog` with a float prediction and a string actual:
the label mismatch is reported and nothing is sent. -/
theorem Log_validation_error_sends_nothing_witness :
    (testClient.Log testEnv background "mk" none "xyz" [] [] []
      (.float64 ⟨0x3FE4CCCCCCCCCCCD⟩) (.string "bad") none []).2.capturedRequests =
        testClient.client.capturedRequests :=
  Log_validation_error_sends_nothing testClient testEnv background "mk" none "xyz" [] [] []
    (.float64 ⟨0x3FE4CCCCCCCCCCCD⟩) (.string "bad") none []
    (.labelsNotSameType ⟨some (.Numeric ⟨0x3FE4CCCCCCCCCCCD⟩)⟩
      ⟨some (.ScoreCategorical (.Category "bad"))⟩)
    rfl rfl

/-! ## Claims about the label validator and the label parser -/

/-- C5: for a call to `Log` with non-empty identifiers and consistent labels,
(1) every value whose type is outside the accepted dimension types (a uint64,
an Embedding, ...) is rejected by `parseValue`; (2) if the tags map contains a
value `parseValue` rejects, `Log` fails with the unsupported-type error of a
tags entry, whether or not a prediction or an actual is supplied; (3) if a
prediction is supplied and the features map contains such a value, `Log`
fails with the unsupported-type error of a tags or features entry. -/
theorem Log_unsupported_dimension_rejected (c : Client) (env : Env) (ctx : Context)
    (modelID : String) (modelVersion : Option String) (predictionID : String)
    (features tags : GoMap RawValue) (shapValues : GoMap Float64)
    (prediction actual : RawValue) (timestamp : Option Time)
    (embeddingFeatures : GoMap (Option Embeddings)) (pl al : Option Label)
    (hm : modelID ≠ "") (hp : predictionID ≠ "")
    (hpl : parseLabel prediction = .ok pl) (hal : parseLabel actual = .ok al)
    (hv : validateLabels pl al = none) :
    (∀ v : RawValue, v.isDimensionType = false →
      parseValue v = .error (.unknownValueType v)) ∧
    ((∃ kv ∈ tags, ∃ e, parseValue kv.2 = .error e) →
      ∃ kv ∈ tags,
        (c.Log env ctx modelID modelVersion predictionID features tags shapValues prediction
          actual timestamp embeddingFeatures).1 = .error (.unknownValueType kv.2)) ∧
    (pl ≠ none → (∃ kv ∈ features, ∃ e, parseValue kv.2 = .error e) →
      ∃ kv, (kv ∈ tags ∨ kv ∈ features) ∧
        (c.Log env ctx modelID modelVersion predictionID features tags shapValues prediction
          actual timestamp embeddingFeatures).1 = .error (.unknownValueType kv.2)) := by
  refine ⟨parseValue_of_not_isDimensionType, ?_, ?_⟩
  · intro hbad
    obtain ⟨kv, hmem, hkv⟩ := parseDimensionsLoop_error_of_mem tags [] hbad
    refine ⟨kv, hmem, ?_⟩
    unfold Client.Log Client.buildRecord
    rw [if_neg hm, if_neg hp, hpl]
    dsimp only
    rw [hal]
    dsimp only
    rw [hv]
    dsimp only
    unfold parseDimensions
    rw [hkv]
  · intro hsome hbad
    rcases parseDimensionsLoop_cases tags [] with ⟨tagsM, ht⟩ | ⟨kv, hmem, hkv⟩
    · obtain ⟨kv, hmem, hkv⟩ := parseDimensionsLoop_error_of_mem features [] hbad
      refine ⟨kv, Or.inr hmem, ?_⟩
      obtain ⟨p, rfl⟩ := Option.ne_none_iff_exists'.mp hsome
      unfold Client.Log Client.buildRecord
      rw [if_neg hm, if_neg hp, hpl]
      dsimp only
      rw [hal]
      dsimp only
      rw [hv]
      dsimp only
      unfold parseDimensions
      rw [ht]
      dsimp only
      rw [hkv]
    · refine ⟨kv, Or.inl hmem, ?_⟩
      unfold Client.Log Client.buildRecord
      rw [if_neg hm, if_neg hp, hpl]
      dsimp only
      rw [hal]
      dsimp only
      rw [hv]
      dsimp only
      unfold parseDimensions
      rw [hkv]

/-- C5, on the calls of `TestLog`: a uint64 tag without prediction or actual,
and an Embedding feature with prediction 0.5. -/
theorem Log_unsupported_dimension_rejected_witness :
    (testClient.Log testEnv background "mk" none "xyz" [] [("x", .uint64 2)] [] .nil .nil
      none []).1 = .error (.unknownValueType (.uint64 2)) ∧
    (testClient.Log testEnv background "mk" none "xyz"
      [("x", .embeddings (some unitEmbedding))] [] [] (.float64 ⟨0x3FE0000000000000⟩) .nil
      none []).1 = .error (.unknownValueType (.embeddings (some unitEmbedding))) := by
  constructor
  · obtain ⟨kv, hmem, h⟩ := (Log_unsupported_dimension_rejected testClient testEnv background
      "mk" none "xyz" [] [("x", .uint64 2)] [] .nil .nil none [] none none (by decide)
      (by decide) rfl rfl rfl).2.1 ⟨("x", .uint64 2), by simp, _, rfl⟩
    simp only [List.mem_singleton] at hmem
    subst hmem
    exact h
  · obtain ⟨kv, hmem, h⟩ := (Log_unsupported_dimension_rejected testClient testEnv background
      "mk" none "xyz"
      [("x", .embeddings (some unitEmbedding))] [] [] (.float64 ⟨0x3FE0000000000000⟩) .nil none []
      (some ⟨some (.Numeric ⟨0x3FE0000000000000⟩)⟩) none (by decide)
      (by decide) rfl rfl rfl).2.2 (by simp) ⟨(_, _), List.mem_singleton.mpr rfl, _, rfl⟩
    simp only [List.not_mem_nil, List.mem_singleton, false_or] at hmem
    subst hmem
    exact h

/-- C6: for every non-null input whose type is not string, bool, integer,
float or the categorical struct, and in particular for every Embedding,
`parseLabel` returns the unsupported-type error and no label. Hence `Log`
with non-empty identifiers and an Embedding as prediction returns that error;
with an Embedding as actual it never succeeds, and returns that error
whenever the prediction itself parses. -/
theorem parseLabel_rejects_other_types (v : RawValue) (p : Option Embeddings) (c : Client)
    (env : Env) (ctx : Context) (modelID : String) (modelVersion : Option String)
    (predictionID : String) (features tags : GoMap RawValue) (shapValues : GoMap Float64)
    (label : RawValue) (timestamp : Option Time)
    (embeddingFeatures : GoMap (Option Embeddings))
    (hnil : v ≠ .nil) (hty : v.isLabelType = false)
    (hm : modelID ≠ "") (hp : predictionID ≠ "") :
    parseLabel v = .error (.unknownLabelType v) ∧
    parseLabel (.embeddings p) = .error (.unknownLabelType (.embeddings p)) ∧
    (c.Log env ctx modelID modelVersion predictionID features tags shapValues
      (.embeddings p) label timestamp embeddingFeatures).1 =
        .error (.unknownLabelType (.embeddings p)) ∧
    (∀ resp, (c.Log env ctx modelID modelVersion predictionID features tags shapValues
      label (.embeddings p) timestamp embeddingFeatures).1 ≠ .ok resp) ∧
    (∀ pl, parseLabel label = .ok pl →
      (c.Log env ctx modelID modelVersion predictionID features tags shapValues
        label (.embeddings p) timestamp embeddingFeatures).1 =
          .error (.unknownLabelType (.embeddings p))) := by
  refine ⟨parseLabel_of_not_isLabelType v hnil hty, rfl, ?_, ?_, ?_⟩
  · unfold Client.Log Client.buildRecord
    rw [if_neg hm, if_neg hp]
    rfl
  · intro resp
    unfold Client.Log Client.buildRecord
    rw [if_neg hm, if_neg hp]
    cases hl : parseLabel label <;> simp [parseLabel]
  · intro pl hl
    unfold Client.Log Client.buildRecord
    rw [if_neg hm, if_neg hp, hl]
    rfl

/-- C6, on a uint64 label and the Embedding labels of `TestLog`. -/
theorem parseLabel_rejects_other_types_witness :
    parseLabel (.uint64 2) = .error (.unknownLabelType (.uint64 2)) ∧
    (testClient.Log testEnv background "mk" none "xyz" [] [] []
      (.embeddings (some unitEmbedding)) (.embeddings (some unitEmbedding)) none []).1 =
        .error (.unknownLabelType (.embeddings (some unitEmbedding))) :=
  have h := parseLabel_rejects_other_types (.uint64 2) (some unitEmbedding) testClient testEnv
    background "mk" none "xyz" [] [] [] (.embeddings (some unitEmbedding)) none []
    (by decide) (by decide) (by decide) (by decide)
  ⟨h.1, h.2.2.1⟩

/-- C7: `parseLabel` maps the null input to the null label with no error, a
string `s` to the Categorical label of category `s`, a bool to the
Categorical label of category "true" or "false", and a categorical struct to
the Categorical label carrying exactly its category, score and numeric
sequence; every label so obtained is Categorical and none is Numeric. -/
theorem parseLabel_categorical_inputs (s : String) (lv : ScoreCategorical) :
    parseLabel .nil = .ok none ∧
    parseLabel (.string s) = .ok (some ⟨some (.ScoreCategorical (.Category s))⟩) ∧
    parseLabel (.bool true) = .ok (some ⟨some (.ScoreCategorical (.Category "true"))⟩) ∧
    parseLabel (.bool false) = .ok (some ⟨some (.ScoreCategorical (.Category "false"))⟩) ∧
    parseLabel (.scoreCategorical (some lv)) =
      .ok (some ⟨some (.ScoreCategorical
        (.ScoreCategory lv.Category lv.Score lv.NumericSequence))⟩) ∧
    (∀ (v : RawValue) (b : Bool),
      v = .string s ∨ v = .bool b ∨ v = .scoreCategorical (some lv) →
        ∃ l, parseLabel v = .ok (some l) ∧ l.isCategorical = true ∧ l.isNumeric = false) := by
  refine ⟨rfl, rfl, rfl, rfl, rfl, ?_⟩
  intro v b hv
  rcases hv with rfl | rfl | rfl <;> exact ⟨_, rfl, rfl, rfl⟩

/-- C8 fails as stated: an int8 and an int16 are integers, yet `parseLabel`
rejects them with the unsupported-type error. -/
theorem parseLabel_int8_int16_rejected :
    (RawValue.int8 1).InRange ∧ (RawValue.int16 1).InRange ∧
    parseLabel (.int8 1) = .error (.unknownLabelType (.int8 1)) ∧
    parseLabel (.int16 1) = .error (.unknownLabelType (.int16 1)) ∧
    ¬ ∃ l, parseLabel (.int8 1) = .ok l := by
  refine ⟨by decide, by decide, rfl, rfl, ?_⟩
  rintro ⟨l, hl⟩
  simp [parseLabel] at hl

/-- C8, amended: for every input of type int, int32, int64, float32 or
float64, `parseLabel` succeeds and returns a Numeric label whose value is the
input converted to a 64-bit float (a float64 is taken as is); it returns
neither an error nor a Categorical label for such an input. -/
theorem parseLabel_numeric_inputs (n : Int) (x : Float64) (y : Float32) :
    parseLabel (.int n) = .ok (some ⟨some (.Numeric (Float64.ofInt n))⟩) ∧
    parseLabel (.int32 n) = .ok (some ⟨some (.Numeric (Float64.ofInt n))⟩) ∧
    parseLabel (.int64 n) = .ok (some ⟨some (.Numeric (Float64.ofInt n))⟩) ∧
    parseLabel (.float64 x) = .ok (some ⟨some (.Numeric x)⟩) ∧
    parseLabel (.float32 y) = .ok (some ⟨some (.Numeric (Float64.ofFloat32 y))⟩) ∧
    (∀ v : RawValue,
      v = .int n ∨ v = .int32 n ∨ v = .int64 n ∨ v = .float64 x ∨ v = .float32 y →
        ∃ l, parseLabel v = .ok (some l) ∧ l.isNumeric = true ∧ l.isCategorical = false) := by
  refine ⟨rfl, rfl, rfl, rfl, rfl, ?_⟩
  intro v hv
  rcases hv with rfl | rfl | rfl | rfl | rfl <;> exact ⟨_, rfl, rfl, rfl⟩

/-! ## Claims about the value parser -/

/-- C9: for every string `s`, `parseValue` returns `Value.String(s)`; for a
bool it returns `Value.String("true")` or `Value.String("false")`; no bool
yields an Int, a Double, an Embedding or an error. -/
theorem parseValue_string_bool (s : String) (b : Bool) :
    parseValue (.string s) = .ok (.String_ s) ∧
    parseValue (.bool true) = .ok (.String_ "true") ∧
    parseValue (.bool false) = .ok (.String_ "false") ∧
    (∃ t, parseValue (.bool b) = .ok (.String_ t) ∧ (t = "true" ∨ t = "false")) ∧
    (∀ i, parseValue (.bool b) ≠ .ok (.Int i)) ∧
    (∀ x, parseValue (.bool b) ≠ .ok (.Double x)) ∧
    (∀ e, parseValue (.bool b) ≠ .ok (.Embedding e)) ∧
    (∀ e, parseValue (.bool b) ≠ .error e) := by
  refine ⟨rfl, rfl, rfl, ?_, ?_, ?_, ?_, ?_⟩
  · cases b
    · exact ⟨"false", rfl, Or.inr rfl⟩
    · exact ⟨"true", rfl, Or.inl rfl⟩
  all_goals (intro _; simp [parseValue])

/-- C10 fails as stated: an int8 and an int16 are signed integers, yet
`parseValue` rejects them with the unsupported-type error. -/
theorem parseValue_int8_int16_rejected :
    (RawValue.int8 1).InRange ∧ (RawValue.int16 1).InRange ∧
    parseValue (.int8 1) = .error (.unknownValueType (.int8 1)) ∧
    parseValue (.int16 1) = .error (.unknownValueType (.int16 1)) ∧
    ¬ ∃ pv, parseValue (.int8 1) = .ok pv := by
  refine ⟨by decide, by decide, rfl, rfl, ?_⟩
  rintro ⟨pv, hpv⟩
  simp [parseValue] at hpv

/-- C10, amended: for every signed integer input of type int, int32 or int64
(within the range of its type), `parseValue` succeeds and returns `Value.Int`
holding the same integer widened to 64 bits; an unsigned 64-bit integer input
is rejected with the unsupported-type error. -/
theorem parseValue_int_inputs (n m k : Int) (u : Nat)
    (hn : (RawValue.int n).InRange) (hm : (RawValue.int32 m).InRange) :
    parseValue (.int n) = .ok (.Int n) ∧
    parseValue (.int32 m) = .ok (.Int m) ∧
    parseValue (.int64 k) = .ok (.Int k) ∧
    parseValue (.uint64 u) = .error (.unknownValueType (.uint64 u)) := by
  refine ⟨?_, ?_, rfl, rfl⟩
  · show Result.ok (Value.Int (toInt64 n)) = _
    rw [toInt64_of_inIntRange n hn]
  · show Result.ok (Value.Int (toInt64 m)) = _
    rw [toInt64_of_inIntRange m (inIntRange_64_of_32 m hm)]

/-- C10, amended, on the tag `t: 1` of `TestFullLog`, a negative int32, the
smallest int64 and the uint64 of `TestLog`. -/
theorem parseValue_int_inputs_witness :
    parseValue (.int 1) = .ok (.Int 1) ∧
    parseValue (.int32 (-7)) = .ok (.Int (-7)) ∧
    parseValue (.int64 (-9223372036854775808)) = .ok (.Int (-9223372036854775808)) ∧
    parseValue (.uint64 2) = .error (.unknownValueType (.uint64 2)) :=
  parseValue_int_inputs 1 (-7) (-9223372036854775808) 2 (by decide) (by decide)

/-! ## Claims about the embedding parser -/

/-- C11: on a map of embeddings (no entry a nil pointer), `parseEmbeddings`
fails, with the empty-vector error, if and only if some entry has a
zero-length vector; when every entry has a non-empty vector it succeeds and
the returned map has exactly the keys of the input. -/
theorem parseEmbeddings_fails_iff_empty_vector (es : GoMap Embeddings) :
    ((∃ e, parseEmbeddings (nonNilEntries es) = .error e) ↔
      ∃ kv ∈ es, kv.2.Vector.length = 0) ∧
    ((∀ ret, parseEmbeddings (nonNilEntries es) ≠ .ok ret) ↔
      ∃ kv ∈ es, kv.2.Vector.length = 0) ∧
    ((∃ kv ∈ es, kv.2.Vector.length = 0) →
      parseEmbeddings (nonNilEntries es) = .error .embeddingsVectorEmpty) ∧
    ((∀ kv ∈ es, kv.2.Vector.length ≠ 0) →
      ∃ ret, parseEmbeddings (nonNilEntries es) = .ok ret ∧
        ∀ k, k ∈ ret.keys ↔ k ∈ es.keys) := by
  have herr : (∃ kv ∈ es, kv.2.Vector.length = 0) →
      parseEmbeddings (nonNilEntries es) = .error .embeddingsVectorEmpty := by
    rintro ⟨kv, hmem, hlen⟩
    exact parseEmbeddingsLoop_nonNil_error es [] ⟨kv, hmem, List.length_eq_zero.mp hlen⟩
  have hok : (¬ ∃ kv ∈ es, kv.2.Vector.length = 0) →
      ∃ ret, parseEmbeddings (nonNilEntries es) = .ok ret := by
    intro hno
    exact parseEmbeddingsLoop_nonNil_ok es [] (fun kv hkv hnil =>
      hno ⟨kv, hkv, by rw [hnil]; rfl⟩)
  refine ⟨⟨?_, fun h => ⟨_, herr h⟩⟩, ⟨?_, ?_⟩, herr, ?_⟩
  · rintro ⟨e, he⟩
    by_contra hno
    obtain ⟨ret, hret⟩ := hok hno
    rw [hret] at he
    simp at he
  · intro hnot
    by_contra hno
    obtain ⟨ret, hret⟩ := hok hno
    exact hnot ret hret
  · intro h ret hret
    rw [herr h] at hret
    simp at hret
  · intro hall
    obtain ⟨ret, hret⟩ := hok (by
      rintro ⟨kv, hmem, hlen⟩
      exact hall kv hmem hlen)
    exact ⟨ret, hret, (parseEmbeddings_nonNil_entries es ret hret).2.1⟩

/-- C11, on the embedding map of `TestFullLog` and on a map with an empty
vector. -/
theorem parseEmbeddings_fails_iff_empty_vector_witness :
    (∃ ret, parseEmbeddings (nonNilEntries [("e", testEmbedding)]) = .ok ret ∧
      ∀ k, k ∈ ret.keys ↔ k ∈ GoMap.keys [("e", testEmbedding)]) ∧
    parseEmbeddings (nonNilEntries [("e", testEmbedding),
      ("f", { Vector := [], Data := [], LinkToData := none })]) =
        .error .embeddingsVectorEmpty :=
  ⟨(parseEmbeddings_fails_iff_empty_vector [("e", testEmbedding)]).2.2.2 (by decide),
    (parseEmbeddings_fails_iff_empty_vector [("e", testEmbedding),
      ("f", { Vector := [], Data := [], LinkToData := none })]).2.2.1
      ⟨("f", { Vector := [], Data := [], LinkToData := none }), by simp, rfl⟩⟩

/-- C12: for every embedding map with distinct keys whose entries all have
non-empty vectors, `parseEmbeddings` succeeds, and each key of the result
maps to the Embedding value of its input entry: the same vector element for
element, the link exactly when one is supplied, and the same token list in
the same order. -/
theorem parseEmbeddings_values (es : GoMap Embeddings) (hnd : es.keys.Nodup)
    (hne : ∀ kv ∈ es, kv.2.Vector.length ≠ 0) :
    ∃ ret, parseEmbeddings (nonNilEntries es) = .ok ret ∧
      (∀ k e, (k, e) ∈ es →
        ret.get? k = some (.Embedding
          { Vector := e.Vector, RawData := some (.TokenArray e.Data),
            LinkToData := e.LinkToData })) ∧
      (∀ k, k ∈ ret.keys → ∃ e, (k, e) ∈ es ∧ ret.get? k = some (embeddingValue e)) := by
  obtain ⟨ret, hret⟩ := parseEmbeddingsLoop_nonNil_ok es [] (fun kv hkv hnil =>
    hne kv hkv (by rw [hnil]; rfl))
  obtain ⟨_, hkeys, hvals⟩ := parseEmbeddings_nonNil_entries es ret hret
  refine ⟨ret, hret, fun k e hmem => (hvals hnd).2 k e hmem, ?_⟩
  intro k hk
  obtain ⟨e, he⟩ := exists_mem_of_mem_keys es k ((hkeys k).mp hk)
  exact ⟨e, he, (hvals hnd).2 k e he⟩

/-- C12, on the embedding map of `TestFullLog`: key "e" carries the vector
`[1.34, 5.67]`, the link "gs://my/thing" and the one token. -/
theorem parseEmbeddings_values_witness :
    ∃ ret, parseEmbeddings (nonNilEntries [("e", testEmbedding)]) = .ok ret ∧
      ret.get? "e" = some (.Embedding
        { Vector := [⟨0x3FF570A3D70A3D71⟩, ⟨0x4016AE147AE147AE⟩]
          RawData := some (.TokenArray ["harrison wuz here"])
          LinkToData := some "gs://my/thing" }) := by
  obtain ⟨ret, hret, hval, _⟩ :=
    parseEmbeddings_values [("e", testEmbedding)] (by decide) (by decide)
  exact ⟨ret, hret, hval "e" testEmbedding (List.mem_singleton.mpr rfl)⟩

/-! ## Claims about the record built by `Client.Log` -/

/-- C13: in the record built by a successful `Log` call in which both a
prediction and an actual are supplied, the tags map of the prediction
sub-record equals the tags map of the actual sub-record, and both are the
result of `parseDimensions` applied to the tags argument. -/
theorem Log_tags_shared (c : Client) (env : Env) (ctx : Context) (modelID : String)
    (modelVersion : Option String) (predictionID : String) (features tags : GoMap RawValue)
    (shapValues : GoMap Float64) (prediction actual : RawValue) (timestamp : Option Time)
    (embeddingFeatures : GoMap (Option Embeddings)) (resp : Response)
    (hlog : (c.Log env ctx modelID modelVersion predictionID features tags shapValues
      prediction actual timestamp embeddingFeatures).1 = .ok resp)
    (hpred : prediction ≠ .nil) (hact : actual ≠ .nil) :
    ∃ r body tagsM p a,
      c.buildRecord env modelID modelVersion predictionID features tags shapValues
        prediction actual timestamp embeddingFeatures = .ok r ∧
      env.marshal r = .ok body ∧
      parseDimensions tags = .ok tagsM ∧
      r.Prediction = some p ∧ r.Actual = some a ∧
      p.Tags = a.Tags ∧ p.Tags = tagsM ∧ a.Tags = tagsM := by
  obtain ⟨r, body, hr, hbody⟩ := Log_ok_inv c env ctx modelID modelVersion predictionID
    features tags shapValues prediction actual timestamp embeddingFeatures resp hlog
  obtain ⟨_, _, pl, al, tagsM, hpl, hal, _, htags, _, _, _, hP, hA, _⟩ :=
    buildRecord_ok_inv c env modelID modelVersion predictionID features tags shapValues
      prediction actual timestamp embeddingFeatures r hr
  rcases hP with ⟨hnone, _⟩ | ⟨p, fs, es, _, _, _, hP⟩
  · subst hnone
    exact absurd ((parseLabel_ok_none_iff prediction).mp hpl) hpred
  · cases al with
    | none => exact absurd ((parseLabel_ok_none_iff actual).mp hal) hact
    | some a =>
      exact ⟨r, body, tagsM, _, _, hr, hbody, htags, hP, hA, rfl, rfl, rfl⟩

/-- C13, on the call of `TestFullLog`: both sub-records carry the one tag
`t: 1`. -/
theorem Log_tags_shared_witness :
    ∃ r body tagsM p a,
      testClient.buildRecord testEnv "sdk_test_model" (some "test_model_version")
        "test_pred_id" testFeatures [("t", .int 1)] [("s", ⟨0x3FFC28F5C28F5C29⟩)]
        (.float64 ⟨0x3FE4CCCCCCCCCCCD⟩) (.float64 ⟨0x3FD3333333333333⟩)
        (some { Unix := 1650000000, Nanosecond := 5 }) [("e", some testEmbedding)] = .ok r ∧
      testEnv.marshal r = .ok body ∧
      parseDimensions [("t", .int 1)] = .ok tagsM ∧
      r.Prediction = some p ∧ r.Actual = some a ∧
      p.Tags = a.Tags ∧ p.Tags = tagsM ∧ a.Tags = tagsM :=
  Log_tags_shared testClient testEnv background "sdk_test_model" (some "test_model_version")
    "test_pred_id" testFeatures [("t", .int 1)] [("s", ⟨0x3FFC28F5C28F5C29⟩)]
    (.float64 ⟨0x3FE4CCCCCCCCCCCD⟩) (.float64 ⟨0x3FD3333333333333⟩)
    (some { Unix := 1650000000, Nanosecond := 5 }) [("e", some testEmbedding)]
    { StatusCode := 200, Body := "" } rfl (by decide) (by decide)

/-- C14: when a timestamp `t` is supplied to `Log` and the call succeeds,
every sub-record present in the built record (prediction, actual, feature
importances) carries the same wire timestamp `timestamppb.New(t)`, whose
seconds field equals the Unix seconds of `t`. -/
theorem Log_timestamp_shared (c : Client) (env : Env) (ctx : Context) (modelID : String)
    (modelVersion : Option String) (predictionID : String) (features tags : GoMap RawValue)
    (shapValues : GoMap Float64) (prediction actual : RawValue) (t : Time)
    (embeddingFeatures : GoMap (Option Embeddings)) (resp : Response)
    (hlog : (c.Log env ctx modelID modelVersion predictionID features tags shapValues
      prediction actual (some t) embeddingFeatures).1 = .ok resp) :
    ∃ r body,
      c.buildRecord env modelID modelVersion predictionID features tags shapValues
        prediction actual (some t) embeddingFeatures = .ok r ∧
      env.marshal r = .ok body ∧
      (∀ p, r.Prediction = some p → p.Timestamp = timestamppbNew t) ∧
      (∀ a, r.Actual = some a → a.Timestamp = timestamppbNew t) ∧
      (∀ fi, r.FeatureImportances = some fi → fi.Timestamp = timestamppbNew t) ∧
      (timestamppbNew t).Seconds = t.Unix := by
  obtain ⟨r, body, hr, hbody⟩ := Log_ok_inv c env ctx modelID modelVersion predictionID
    features tags shapValues prediction actual (some t) embeddingFeatures resp hlog
  obtain ⟨_, _, pl, al, tagsM, _, _, _, _, _, _, _, hP, hA, hF⟩ :=
    buildRecord_ok_inv c env modelID modelVersion predictionID features tags shapValues
      prediction actual (some t) embeddingFeatures r hr
  refine ⟨r, body, hr, hbody, ?_, ?_, ?_, rfl⟩
  · intro p hp
    rcases hP with ⟨_, hnone⟩ | ⟨p', fs, es, _, _, _, hP⟩
    · rw [hnone] at hp
      simp at hp
    · rw [hP] at hp
      simp only [Option.some.injEq] at hp
      subst hp
      rfl
  · intro a ha
    rw [hA] at ha
    cases al with
    | none => simp at ha
    | some a' =>
      simp only [Option.map_some', Option.some.injEq] at ha
      subst ha
      rfl
  · intro fi hfi
    rw [hF] at hfi
    split at hfi
    · simp only [Option.some.injEq] at hfi
      subst hfi
      rfl
    · simp at hfi

/-- C14, on the call of `TestFullLog` with the time 1650000000 s + 5 ns. -/
theorem Log_timestamp_shared_witness :
    ∃ r body,
      testClient.buildRecord testEnv "sdk_test_model" (some "test_model_version")
        "test_pred_id" testFeatures [("t", .int 1)] [("s", ⟨0x3FFC28F5C28F5C29⟩)]
        (.float64 ⟨0x3FE4CCCCCCCCCCCD⟩) (.float64 ⟨0x3FD3333333333333⟩)
        (some { Unix := 1650000000, Nanosecond := 5 }) [("e", some testEmbedding)] = .ok r ∧
      testEnv.marshal r = .ok body ∧
      (∀ p, r.Prediction = some p →
        p.Timestamp = timestamppbNew { Unix := 1650000000, Nanosecond := 5 }) ∧
      (∀ a, r.Actual = some a →
        a.Timestamp = timestamppbNew { Unix := 1650000000, Nanosecond := 5 }) ∧
      (∀ fi, r.FeatureImportances = some fi →
        fi.Timestamp = timestamppbNew { Unix := 1650000000, Nanosecond := 5 }) ∧
      (timestamppbNew { Unix := 1650000000, Nanosecond := 5 }).Seconds = 1650000000 :=
  Log_timestamp_shared testClient testEnv background "sdk_test_model"
    (some "test_model_version") "test_pred_id" testFeatures [("t", .int 1)]
    [("s", ⟨0x3FFC28F5C28F5C29⟩)] (.float64 ⟨0x3FE4CCCCCCCCCCCD⟩)
    (.float64 ⟨0x3FD3333333333333⟩) { Unix := 1650000000, Nanosecond := 5 }
    [("e", some testEmbedding)] { StatusCode := 200, Body := "" } rfl

/-! ## Claims about the dimension parser -/

/-- C15 fails as stated: the same two entries visited in the two possible
orders give two different outcomes, each order reporting the rejected value
it meets first. -/
theorem parseDimensions_error_depends_on_order :
    List.Perm [("a", RawValue.uint64 1), ("b", RawValue.uint64 2)]
      [("b", RawValue.uint64 2), ("a", RawValue.uint64 1)] ∧
    parseDimensions [("a", .uint64 1), ("b", .uint64 2)] =
      .error (.unknownValueType (.uint64 1)) ∧
    parseDimensions [("b", .uint64 2), ("a", .uint64 1)] =
      .error (.unknownValueType (.uint64 2)) ∧
    parseDimensions [("a", .uint64 1), ("b", .uint64 2)] ≠
      parseDimensions [("b", .uint64 2), ("a", .uint64 1)] := by
  refine ⟨List.Perm.swap _ _ _, rfl, rfl, ?_⟩
  simp [parseDimensions, parseDimensionsLoop, parseValue]

/-- C15, amended: for every map `dims` of raw dimension values (distinct
keys), `parseDimensions` succeeds if and only if `parseValue` succeeds on
every value; on success the result has exactly the keys of the input and maps
each key to `parseValue` of that key's value; on failure it returns no map
but the unsupported-type error of the first rejected value visited (every
entry visited before it is accepted). Whether it succeeds, and on success
what each key maps to, is the same for every order `dims'` in which the
entries are visited. -/
theorem parseDimensions_entrywise (dims dims' : GoMap RawValue) (hnd : dims.keys.Nodup)
    (hperm : List.Perm dims dims') :
    ((∃ ret, parseDimensions dims = .ok ret) ↔
      ∀ kv ∈ dims, ∃ pv, parseValue kv.2 = .ok pv) ∧
    (∀ ret, parseDimensions dims = .ok ret →
      (∀ k, k ∈ ret.keys ↔ k ∈ dims.keys) ∧
      ∀ k v, (k, v) ∈ dims → ∃ pv, parseValue v = .ok pv ∧ ret.get? k = some pv) ∧
    ((¬ ∀ kv ∈ dims, ∃ pv, parseValue kv.2 = .ok pv) →
      ∃ pre kv post, dims = pre ++ kv :: post ∧
        (∀ x ∈ pre, ∃ pv, parseValue x.2 = .ok pv) ∧
        parseValue kv.2 = .error (.unknownValueType kv.2) ∧
        parseDimensions dims = .error (.unknownValueType kv.2)) ∧
    ((∃ ret, parseDimensions dims = .ok ret) ↔ ∃ ret', parseDimensions dims' = .ok ret') ∧
    (∀ ret ret', parseDimensions dims = .ok ret → parseDimensions dims' = .ok ret' →
      (∀ k, ret.get? k = ret'.get? k) ∧ ∀ k, k ∈ ret.keys ↔ k ∈ ret'.keys) := by
  have hiff : ∀ ds : GoMap RawValue, (∃ ret, parseDimensions ds = .ok ret) ↔
      ∀ kv ∈ ds, ∃ pv, parseValue kv.2 = .ok pv := fun ds =>
    ⟨fun ⟨ret, hret⟩ => (parseDimensions_ok_entries ds ret hret).2.2.1,
      fun hall => parseDimensionsLoop_ok_of_forall ds [] hall⟩
  have hkeys : ∀ k, k ∈ dims'.keys ↔ k ∈ dims.keys := fun k =>
    (List.Perm.map Prod.fst hperm).symm.mem_iff
  have hnd' : dims'.keys.Nodup := (List.Perm.map Prod.fst hperm).nodup_iff.mp hnd
  refine ⟨hiff dims, ?_, ?_, ?_, ?_⟩
  · intro ret hret
    obtain ⟨_, hk, _, hv⟩ := parseDimensions_ok_entries dims ret hret
    exact ⟨hk, (hv hnd).2⟩
  · intro hnot
    exact parseDimensionsLoop_first_error dims [] hnot
  · rw [hiff dims, hiff dims']
    exact ⟨fun h kv hkv => h kv (hperm.mem_iff.mpr hkv),
      fun h kv hkv => h kv (hperm.mem_iff.mp hkv)⟩
  · intro ret ret' hret hret'
    obtain ⟨_, hk, _, hv⟩ := parseDimensions_ok_entries dims ret hret
    obtain ⟨_, hk', _, hv'⟩ := parseDimensions_ok_entries dims' ret' hret'
    refine ⟨?_, fun k => by rw [hk, hk', hkeys]⟩
    intro k
    by_cases hmem : k ∈ dims.keys
    · obtain ⟨v, hkv⟩ := exists_mem_of_mem_keys dims k hmem
      obtain ⟨pv, hpv, hget⟩ := (hv hnd).2 k v hkv
      obtain ⟨pv', hpv', hget'⟩ := (hv' hnd').2 k v (hperm.mem_iff.mp hkv)
      rw [hpv] at hpv'
      cases hpv'
      rw [hget, hget']
    · have h1 : ret.get? k = none := (GoMap.get?_eq_none_iff ret k).mpr (fun h => hmem ((hk k).mp h))
      have h2 : ret'.get? k = none :=
        (GoMap.get?_eq_none_iff ret' k).mpr (fun h => hmem ((hkeys k).mp ((hk' k).mp h)))
      rw [h1, h2]

/-- C15, amended, on the features of `TestFullLog` visited in two orders:
both succeed, and key "x" maps to `Value.Int 1` either way. -/
theorem parseDimensions_entrywise_witness :
    (∃ ret, parseDimensions testFeatures = .ok ret) ∧
    (∀ ret ret', parseDimensions testFeatures = .ok ret →
      parseDimensions [("z", .float64 ⟨0x3FF547AE147AE148⟩), ("x", .int 1),
        ("y", .string "y1")] = .ok ret' →
      (∀ k, ret.get? k = ret'.get? k) ∧ ∀ k, k ∈ ret.keys ↔ k ∈ ret'.keys) ∧
    (∀ ret, parseDimensions testFeatures = .ok ret →
      ∃ pv, parseValue (.int 1) = .ok pv ∧ ret.get? "x" = some pv) := by
  have h := parseDimensions_entrywise testFeatures
    [("z", .float64 ⟨0x3FF547AE147AE148⟩), ("x", .int 1), ("y", .string "y1")]
    (by decide) (by decide)
  refine ⟨⟨_, rfl⟩, h.2.2.2.2, ?_⟩
  intro ret hret
  exact (h.2.1 ret hret).2 "x" (.int 1) (by simp [testFeatures])

/-- C16: in the record built by a successful `Log` call with a prediction
supplied (maps with distinct keys), the key set of the prediction's feature
map is the union of the keys of `features` and of `embeddingFeatures`; every
key of `embeddingFeatures` maps to its Embedding value, also when the key
occurs in `features`; every other key maps to `parseValue` of its features
entry; and when the two key sets are disjoint the map has as many entries as
the two inputs together. -/
theorem Log_features_merged (c : Client) (env : Env) (ctx : Context) (modelID : String)
    (modelVersion : Option String) (predictionID : String) (features tags : GoMap RawValue)
    (shapValues : GoMap Float64) (prediction actual : RawValue) (timestamp : Option Time)
    (embeddingFeatures : GoMap (Option Embeddings)) (resp : Response)
    (hlog : (c.Log env ctx modelID modelVersion predictionID features tags shapValues
      prediction actual timestamp embeddingFeatures).1 = .ok resp)
    (hpred : prediction ≠ .nil) (hnf : features.keys.Nodup)
    (hne : embeddingFeatures.keys.Nodup) :
    ∃ r body p,
      c.buildRecord env modelID modelVersion predictionID features tags shapValues
        prediction actual timestamp embeddingFeatures = .ok r ∧
      env.marshal r = .ok body ∧ r.Prediction = some p ∧
      (∀ k, k ∈ p.Features.keys ↔ k ∈ features.keys ∨ k ∈ embeddingFeatures.keys) ∧
      (∀ k pe, (k, pe) ∈ embeddingFeatures →
        ∃ e, pe = some e ∧ p.Features.get? k = some (embeddingValue e)) ∧
      (∀ k v, (k, v) ∈ features → k ∉ embeddingFeatures.keys →
        ∃ pv, parseValue v = .ok pv ∧ p.Features.get? k = some pv) ∧
      ((∀ k ∈ embeddingFeatures.keys, k ∉ features.keys) →
        p.Features.length = features.length + embeddingFeatures.length) := by
  obtain ⟨r, body, hr, hbody⟩ := Log_ok_inv c env ctx modelID modelVersion predictionID
    features tags shapValues prediction actual timestamp embeddingFeatures resp hlog
  obtain ⟨_, _, pl, al, tagsM, hpl, _, _, _, _, _, _, hP, _, _⟩ :=
    buildRecord_ok_inv c env modelID modelVersion predictionID features tags shapValues
      prediction actual timestamp embeddingFeatures r hr
  rcases hP with ⟨hnone, _⟩ | ⟨pl', fs, es, _, hfs, hes, hP⟩
  · subst hnone
    exact absurd ((parseLabel_ok_none_iff prediction).mp hpl) hpred
  obtain ⟨_, hfk, _, hfv⟩ := parseDimensions_ok_entries features fs hfs
  obtain ⟨hend, hek, hev⟩ := parseEmbeddings_ok_entries embeddingFeatures es hes
  refine ⟨r, body, _, hr, hbody, hP, ?_, ?_, ?_, ?_⟩
  · intro k
    show k ∈ (mergeEmbeddings fs es).keys ↔ _
    rw [mem_keys_mergeEmbeddings, hfk, hek]
  · intro k pe hmem
    obtain ⟨e, he, hget⟩ := (hev hne).2 k pe hmem
    refine ⟨e, he, ?_⟩
    show (mergeEmbeddings fs es).get? k = _
    exact get?_mergeEmbeddings_of_mem fs es k _ hend (GoMap.mem_of_get?_eq_some es k _ hget)
  · intro k v hmem hnot
    obtain ⟨pv, hpv, hget⟩ := (hfv hnf).2 k v hmem
    refine ⟨pv, hpv, ?_⟩
    show (mergeEmbeddings fs es).get? k = _
    rw [get?_mergeEmbeddings_of_not_mem fs es k (fun h => hnot ((hek k).mp h)), hget]
  · intro hdisj
    show (mergeEmbeddings fs es).length = _
    rw [length_mergeEmbeddings fs es hend (fun k hk hfsk =>
      hdisj k ((hek k).mp hk) ((hfk k).mp hfsk)), (hfv hnf).1, (hev hne).1]

/-- C16, on the call of `TestFullLog`: three plain features and one embedding
under distinct keys give a feature map of four entries, with the embedding
under "e". -/
theorem Log_features_merged_witness :
    ∃ r body p,
      testClient.buildRecord testEnv "sdk_test_model" (some "test_model_version")
        "test_pred_id" testFeatures [("t", .int 1)] [("s", ⟨0x3FFC28F5C28F5C29⟩)]
        (.float64 ⟨0x3FE4CCCCCCCCCCCD⟩) (.float64 ⟨0x3FD3333333333333⟩)
        (some { Unix := 1650000000, Nanosecond := 5 }) [("e", some testEmbedding)] = .ok r ∧
      testEnv.marshal r = .ok body ∧ r.Prediction = some p ∧
      p.Features.length = 4 ∧ p.Features.get? "e" = some (embeddingValue testEmbedding) := by
  obtain ⟨r, body, p, hr, hbody, hp, _, hemb, _, hlen⟩ :=
    Log_features_merged testClient testEnv background "sdk_test_model"
      (some "test_model_version") "test_pred_id" testFeatures [("t", .int 1)]
      [("s", ⟨0x3FFC28F5C28F5C29⟩)] (.float64 ⟨0x3FE4CCCCCCCCCCCD⟩)
      (.float64 ⟨0x3FD3333333333333⟩) (some { Unix := 1650000000, Nanosecond := 5 })
      [("e", some testEmbedding)] { StatusCode := 200, Body := "" } rfl (by decide)
      (by decide) (by decide)
  refine ⟨r, body, p, hr, hbody, hp, hlen (by decide), ?_⟩
  obtain ⟨e, he, hget⟩ := hemb "e" (some testEmbedding) (List.mem_singleton.mpr rfl)
  cases he
  exact hget

/-- C17: in the record built by a successful `Log` call the prediction
sub-record is present if and only if the prediction argument is non-null,
the actual sub-record if and only if the actual argument is non-null, and
the feature-importances sub-record if and only if `shapValues` is non-empty.
In particular a call with non-empty identifiers and none of the three, whose
tags parse (as when there are none), passes validation: the record handed to
the transport side carries only space key, model id and prediction id. -/
theorem Log_subrecords_present_iff (c : Client) (env : Env) (ctx : Context)
    (modelID : String) (modelVersion : Option String) (predictionID : String)
    (features tags : GoMap RawValue) (shapValues : GoMap Float64)
    (prediction actual : RawValue) (timestamp : Option Time)
    (embeddingFeatures : GoMap (Option Embeddings)) :
    (∀ resp,
      (c.Log env ctx modelID modelVersion predictionID features tags shapValues
        prediction actual timestamp embeddingFeatures).1 = .ok resp →
      ∃ r body,
        c.buildRecord env modelID modelVersion predictionID features tags shapValues
          prediction actual timestamp embeddingFeatures = .ok r ∧
        env.marshal r = .ok body ∧
        (r.Prediction.isSome = true ↔ prediction ≠ .nil) ∧
        (r.Actual.isSome = true ↔ actual ≠ .nil) ∧
        (r.FeatureImportances.isSome = true ↔ shapValues ≠ [])) ∧
    (modelID ≠ "" → predictionID ≠ "" → ∀ tagsM, parseDimensions tags = .ok tagsM →
      c.buildRecord env modelID modelVersion predictionID features tags [] .nil .nil
        timestamp embeddingFeatures =
          .ok { SpaceKey := c.spaceKey, ModelId := modelID, PredictionId := predictionID,
                Prediction := none, Actual := none, FeatureImportances := none } ∧
      c.Log env ctx modelID modelVersion predictionID features tags [] .nil .nil
        timestamp embeddingFeatures =
          c.send env ctx { SpaceKey := c.spaceKey, ModelId := modelID,
                           PredictionId := predictionID, Prediction := none, Actual := none,
                           FeatureImportances := none }) := by
  refine ⟨?_, ?_⟩
  · intro resp hlog
    obtain ⟨r, body, hr, hbody⟩ := Log_ok_inv c env ctx modelID modelVersion predictionID
      features tags shapValues prediction actual timestamp embeddingFeatures resp hlog
    obtain ⟨_, _, pl, al, tagsM, hpl, hal, _, _, _, _, _, hP, hA, hF⟩ :=
      buildRecord_ok_inv c env modelID modelVersion predictionID features tags shapValues
        prediction actual timestamp embeddingFeatures r hr
    refine ⟨r, body, hr, hbody, ?_, ?_, ?_⟩
    · rcases hP with ⟨hnone, hP⟩ | ⟨p, fs, es, hsome, _, _, hP⟩
      · subst hnone
        rw [hP]
        simp [(parseLabel_ok_none_iff prediction).mp hpl]
      · subst hsome
        rw [hP]
        simp only [Option.isSome_some, true_iff]
        intro hnil
        rw [hnil] at hpl
        simp [parseLabel] at hpl
    · rw [hA]
      cases al with
      | none => simp [(parseLabel_ok_none_iff actual).mp hal]
      | some a =>
        simp only [Option.map_some', Option.isSome_some, true_iff]
        intro hnil
        rw [hnil] at hal
        simp [parseLabel] at hal
    · rw [hF]
      cases shapValues <;> simp
  · intro hm hp tagsM ht
    have hb : c.buildRecord env modelID modelVersion predictionID features tags [] .nil .nil
        timestamp embeddingFeatures =
          .ok { SpaceKey := c.spaceKey, ModelId := modelID, PredictionId := predictionID,
                Prediction := none, Actual := none, FeatureImportances := none } := by
      unfold Client.buildRecord
      rw [if_neg hm, if_neg hp]
      simp only [parseLabel, validateLabels]
      rw [ht]
      rfl
    refine ⟨hb, ?_⟩
    unfold Client.Log
    rw [hb]

/-- C17, on the call of `TestFullLog` (all three present) and the call of
`TestLog` with identifiers only. -/
theorem Log_subrecords_present_iff_witness :
    (∃ r body,
      testClient.buildRecord testEnv "sdk_test_model" (some "test_model_version")
        "test_pred_id" testFeatures [("t", .int 1)] [("s", ⟨0x3FFC28F5C28F5C29⟩)]
        (.float64 ⟨0x3FE4CCCCCCCCCCCD⟩) (.float64 ⟨0x3FD3333333333333⟩)
        (some { Unix := 1650000000, Nanosecond := 5 }) [("e", some testEmbedding)] = .ok r ∧
      testEnv.marshal r = .ok body ∧
      r.Prediction.isSome = true ∧ r.Actual.isSome = true ∧
      r.FeatureImportances.isSome = true) ∧
    testClient.buildRecord testEnv "mk" none "xyz" [] [] [] .nil .nil none [] =
      .ok { SpaceKey := testClient.spaceKey, ModelId := "mk", PredictionId := "xyz",
            Prediction := none, Actual := none, FeatureImportances := none } := by
  obtain ⟨r, body, hr, hbody, h1, h2, h3⟩ :=
    (Log_subrecords_present_iff testClient testEnv background "sdk_test_model"
      (some "test_model_version") "test_pred_id" testFeatures [("t", .int 1)]
      [("s", ⟨0x3FFC28F5C28F5C29⟩)] (.float64 ⟨0x3FE4CCCCCCCCCCCD⟩)
      (.float64 ⟨0x3FD3333333333333⟩) (some { Unix := 1650000000, Nanosecond := 5 })
      [("e", some testEmbedding)]).1 { StatusCode := 200, Body := "" } rfl
  exact ⟨⟨r, body, hr, hbody, h1.mpr (by decide), h2.mpr (by decide), h3.mpr (by decide)⟩,
    ((Log_subrecords_present_iff testClient testEnv background "mk" none "xyz" [] [] []
      .nil .nil none []).2 (by decide) (by decide) [] rfl).1⟩

/-- C18: when the prediction argument is null, `Log` does not inspect
`features` or `embeddingFeatures`: two calls that differ only in these two
arguments build the same record (or fail alike) and have the same outcome,
also when `features` holds a value of unsupported type or an embedding has
an empty vector or is a nil pointer. -/
theorem Log_ignores_features_without_prediction (c : Client) (env : Env) (ctx : Context)
    (modelID : String) (modelVersion : Option String) (predictionID : String)
    (features features' tags : GoMap RawValue) (shapValues : GoMap Float64)
    (actual : RawValue) (timestamp : Option Time)
    (embeddingFeatures embeddingFeatures' : GoMap (Option Embeddings)) :
    c.buildRecord env modelID modelVersion predictionID features tags shapValues .nil actual
        timestamp embeddingFeatures =
      c.buildRecord env modelID modelVersion predictionID features' tags shapValues .nil actual
        timestamp embeddingFeatures' ∧
    c.Log env ctx modelID modelVersion predictionID features tags shapValues .nil actual
        timestamp embeddingFeatures =
      c.Log env ctx modelID modelVersion predictionID features' tags shapValues .nil actual
        timestamp embeddingFeatures' := by
  have hb : c.buildRecord env modelID modelVersion predictionID features tags shapValues .nil
        actual timestamp embeddingFeatures =
      c.buildRecord env modelID modelVersion predictionID features' tags shapValues .nil actual
        timestamp embeddingFeatures' := by
    unfold Client.buildRecord
    by_cases hm : modelID = ""
    · rw [if_pos hm, if_pos hm]
    rw [if_neg hm, if_neg hm]
    by_cases hp : predictionID = ""
    · rw [if_pos hp, if_pos hp]
    rw [if_neg hp, if_neg hp]
    simp only [parseLabel]
  refine ⟨hb, ?_⟩
  unfold Client.Log
  rw [hb]

/-- C19: the code at the two inputs with a nil pointer. `parseLabel` on a nil
`*ScoreCategorical` and `parseEmbeddings` on a map with a nil entry panic
instead of returning a value or an error, and so does `Log` when handed
either; the nil `*ScoreCategorical` is the only label input on which
`parseLabel` panics. -/
theorem parseLabel_parseEmbeddings_nil_pointer_panic :
    parseLabel (.scoreCategorical none) = .panic ∧
    parseEmbeddings [("e", none)] = .panic ∧
    (∀ v, parseLabel v = .panic ↔ v = .scoreCategorical none) ∧
    (testClient.Log testEnv background "mk" none "xyz" [] [] [] (.scoreCategorical none)
      .nil none []).1 = .panic ∧
    (testClient.Log testEnv background "mk" none "xyz" [] [] []
      (.float64 ⟨0x3FE0000000000000⟩) .nil none [("e", none)]).1 = .panic := by
  refine ⟨rfl, rfl, ?_, rfl, rfl⟩
  intro v
  constructor
  · intro h
    cases v <;> first
      | (simp [parseLabel] at h; done)
      | (rename_i p; cases p <;> simp [parseLabel] at h; rfl)
  · rintro rfl
    rfl

/-- C20: every non-null label returned by `parseLabel` is Categorical or
Numeric; hence for all raw inputs `p` and `a` on which `parseLabel` succeeds,
`validateLabels` on the two parsed labels either succeeds or fails with the
"need to be the same type" mismatch error, never with the unknown-label
error. -/
theorem validateLabels_after_parseLabel (p a : RawValue) (pl al : Option Label)
    (hp : parseLabel p = .ok pl) (ha : parseLabel a = .ok al) :
    (∀ l, pl = some l → l.isCategorical = true ∨ l.isNumeric = true) ∧
    (∀ l, al = some l → l.isCategorical = true ∨ l.isNumeric = true) ∧
    (validateLabels pl al = none ∨
      ∃ x y, pl = some x ∧ al = some y ∧ validateLabels pl al = some (.labelsNotSameType x y)) ∧
    (∀ l, validateLabels pl al ≠ some (.unknownPredictionLabel l)) := by
  have h1 : ∀ l, pl = some l → l.isCategorical = true ∨ l.isNumeric = true := by
    intro l hl
    subst hl
    exact parseLabel_ok_some_variant p l hp
  have h2 : ∀ l, al = some l → l.isCategorical = true ∨ l.isNumeric = true := by
    intro l hl
    subst hl
    exact parseLabel_ok_some_variant a l ha
  have h3 : validateLabels pl al = none ∨
      ∃ x y, pl = some x ∧ al = some y ∧
        validateLabels pl al = some (.labelsNotSameType x y) := by
    cases pl with
    | none => exact Or.inl (by simp [validateLabels])
    | some x =>
      cases al with
      | none => exact Or.inl (by simp [validateLabels])
      | some y =>
        obtain ⟨xd⟩ := x
        obtain ⟨yd⟩ := y
        have hx := h1 _ rfl
        rcases xd with _ | _ | _ <;> rcases yd with _ | _ | _ <;>
          simp [validateLabels, Label.isCategorical, Label.isNumeric] at hx ⊢
  refine ⟨h1, h2, h3, ?_⟩
  intro l hl
  rcases h3 with h | ⟨x, y, _, _, h⟩ <;> rw [h] at hl <;> simp at hl

/-- C20, on the labels of `TestLog`: prediction 0.65 and actual "bad" parse,
and the validator answers with the mismatch error. -/
theorem validateLabels_after_parseLabel_witness :
    (validateLabels (some ⟨some (.Numeric ⟨0x3FE4CCCCCCCCCCCD⟩)⟩)
        (some ⟨some (.ScoreCategorical (.Category "bad"))⟩) = none ∨
      ∃ x y, some (⟨some (.Numeric ⟨0x3FE4CCCCCCCCCCCD⟩)⟩ : Label) = some x ∧
        some (⟨some (.ScoreCategorical (.Category "bad"))⟩ : Label) = some y ∧
        validateLabels (some ⟨some (.Numeric ⟨0x3FE4CCCCCCCCCCCD⟩)⟩)
          (some ⟨some (.ScoreCategorical (.Category "bad"))⟩) =
            some (.labelsNotSameType x y)) ∧
    (∀ l, validateLabels (some ⟨some (.Numeric ⟨0x3FE4CCCCCCCCCCCD⟩)⟩)
        (some ⟨some (.ScoreCategorical (.Category "bad"))⟩) ≠
      some (.unknownPredictionLabel l)) :=
  have h := validateLabels_after_parseLabel (.float64 ⟨0x3FE4CCCCCCCCCCCD⟩) (.string "bad")
    (some ⟨some (.Numeric ⟨0x3FE4CCCCCCCCCCCD⟩)⟩)
    (some ⟨some (.ScoreCategorical (.Category "bad"))⟩) rfl rfl
  ⟨h.2.2.1, h.2.2.2⟩

end Arize
